import Mathlib

/-
  Verification development for the VCP plugin orchestration runtime
  (PluginManager in Plugin.js together with the FileFetcherServer).

  The JavaScript source is shallowly embedded: each relevant method is
  translated to a pure Lean function over explicit state values.  JavaScript
  Maps become association lists (insertion ordered, first-match lookup),
  subprocess side effects become event traces folded through the handler
  logic, and JSON.parse is modelled by an executable JSON parser covering
  the fragment exercised by the runtime (null / booleans / integer numbers /
  strings with simple escapes / arrays / objects; floats and unicode escapes
  are outside the modelled fragment).
-/

namespace VCP

/-! ## JavaScript string primitives -/

/-- Whitespace recognised by the JavaScript trim / regex "backslash-s"
    classes, restricted to the ASCII range used by the runtime. -/
def jsWsChar (c : Char) : Bool :=
  c = ' ' || c = '\t' || c = '\n' || c = '\r' || c = '\x0b' || c = '\x0c'

def dropLeadingWs (l : List Char) : List Char :=
  l.dropWhile jsWsChar

/-- Model of the JavaScript String.prototype.trim. -/
def jsTrim (s : String) : String :=
  ⟨(dropLeadingWs (dropLeadingWs s.data).reverse).reverse⟩

/-- Model of substring(0, n). -/
def jsTake (s : String) (n : Nat) : String :=
  ⟨s.data.take n⟩

/-- Model of String.prototype.toLowerCase on the ASCII range. -/
def jsToLower (s : String) : String :=
  ⟨s.data.map Char.toLower⟩

/-- Model of String.prototype.startsWith. -/
def jsStartsWith (s p : String) : Bool :=
  p.data.isPrefixOf s.data

def replaceFirstAux (pat : List Char) : List Char → List Char
  | [] => []
  | c :: rest =>
    if pat.isPrefixOf (c :: rest) then (c :: rest).drop pat.length
    else c :: replaceFirstAux pat rest

/-- Model of s.replace(pat, "") for a plain (non regex) pattern:
    the first occurrence of pat is removed. -/
def jsReplaceFirst (s pat : String) : String :=
  ⟨replaceFirstAux pat.data s.data⟩

def containsSubAux (sub : List Char) : List Char → Bool
  | [] => sub.isEmpty
  | c :: rest => sub.isPrefixOf (c :: rest) || containsSubAux sub rest

/-- Substring containment test (used to state what an error message does or
    does not carry). -/
def strContains (s sub : String) : Bool :=
  containsSubAux sub.data s.data

def digitsValAux (acc : Nat) : List Char → Nat
  | [] => acc
  | c :: rest => if c.isDigit then digitsValAux (acc * 10 + (c.toNat - 48)) rest else acc

def headIsDigit (l : List Char) : Bool :=
  match l with
  | [] => false
  | c :: _ => c.isDigit

/-- Model of parseInt(s, 10): leading whitespace skipped, optional sign,
    then the maximal leading run of decimal digits; none when that run is
    empty (JavaScript NaN). -/
def jsParseInt (s : String) : Option Int :=
  let cs := dropLeadingWs s.data
  match cs with
  | '-' :: rest => if headIsDigit rest then some (-(digitsValAux 0 rest : Int)) else none
  | '+' :: rest => if headIsDigit rest then some ((digitsValAux 0 rest : Int)) else none
  | _ => if headIsDigit cs then some ((digitsValAux 0 cs : Int)) else none

/-! ## JSON values and a model of JSON.parse

The runtime feeds plugin stdout through JSON.parse.  The parser below is an
executable model of JSON.parse on the fragment the runtime exchanges:
null, true, false, integer numbers, strings with the simple escapes,
arrays and objects.  Fuel bounds the recursion; the top level entry point
supplies fuel larger than the input length, which is enough because every
recursive call first consumes at least one character. -/

inductive Json where
  | null
  | bool (b : Bool)
  | num (n : Int)
  | str (s : String)
  | arr (elems : List Json)
  | obj (fields : List (String × Json))
deriving Repr

def jsonWsChar (c : Char) : Bool :=
  c = ' ' || c = '\t' || c = '\n' || c = '\r'

def skipJsonWs : List Char → List Char
  | [] => []
  | c :: rest => if jsonWsChar c then skipJsonWs rest else c :: rest

def escChar (c : Char) : Option Char :=
  if c = '"' then some '"'
  else if c = '\\' then some '\\'
  else if c = '/' then some '/'
  else if c = 'n' then some '\n'
  else if c = 't' then some '\t'
  else if c = 'r' then some '\r'
  else if c = 'b' then some '\x08'
  else if c = 'f' then some '\x0c'
  else none

def parseStrChars : Nat → List Char → Option (List Char × List Char)
  | 0, _ => none
  | _ + 1, [] => none
  | fuel + 1, c :: rest =>
    if c = '"' then some ([], rest)
    else if c = '\\' then
      match rest with
      | [] => none
      | e :: rest2 =>
        match escChar e with
        | none => none
        | some ec =>
          match parseStrChars fuel rest2 with
          | some (cs, rem) => some (ec :: cs, rem)
          | none => none
    else
      match parseStrChars fuel rest with
      | some (cs, rem) => some (c :: cs, rem)
      | none => none

def parseIntChars (l : List Char) : Option (Int × List Char) :=
  match l with
  | '-' :: rest =>
    if headIsDigit rest then
      some (-(digitsValAux 0 (rest.takeWhile Char.isDigit) : Int), rest.dropWhile Char.isDigit)
    else none
  | _ =>
    if headIsDigit l then
      some ((digitsValAux 0 (l.takeWhile Char.isDigit) : Int), l.dropWhile Char.isDigit)
    else none

mutual

def parseJsonVal : Nat → List Char → Option (Json × List Char)
  | 0, _ => none
  | fuel + 1, input =>
    match skipJsonWs input with
    | [] => none
    | c :: rest =>
      if c = 'n' then
        match rest with
        | 'u' :: 'l' :: 'l' :: r => some (Json.null, r)
        | _ => none
      else if c = 't' then
        match rest with
        | 'r' :: 'u' :: 'e' :: r => some (Json.bool true, r)
        | _ => none
      else if c = 'f' then
        match rest with
        | 'a' :: 'l' :: 's' :: 'e' :: r => some (Json.bool false, r)
        | _ => none
      else if c = '"' then
        match parseStrChars (fuel + 1) rest with
        | some (cs, rem) => some (Json.str ⟨cs⟩, rem)
        | none => none
      else if c = '[' then
        match skipJsonWs rest with
        | d :: rest2 =>
          if d = ']' then some (Json.arr [], rest2)
          else
            match parseJsonElems fuel (d :: rest2) with
            | some (es, rem) => some (Json.arr es, rem)
            | none => none
        | [] => none
      else if c = '\x7b' then
        match skipJsonWs rest with
        | d :: rest2 =>
          if d = '\x7d' then some (Json.obj [], rest2)
          else
            match parseJsonFields fuel (d :: rest2) with
            | some (fs, rem) => some (Json.obj fs, rem)
            | none => none
        | [] => none
      else if c = '-' || c.isDigit then
        match parseIntChars (c :: rest) with
        | some (n, rem) => some (Json.num n, rem)
        | none => none
      else none

def parseJsonElems : Nat → List Char → Option (List Json × List Char)
  | 0, _ => none
  | fuel + 1, input =>
    match parseJsonVal fuel input with
    | none => none
    | some (v, rem) =>
      match skipJsonWs rem with
      | ',' :: rem2 =>
        match parseJsonElems fuel rem2 with
        | some (vs, rem3) => some (v :: vs, rem3)
        | none => none
      | ']' :: rem2 => some ([v], rem2)
      | _ => none

def parseJsonFields : Nat → List Char → Option (List (String × Json) × List Char)
  | 0, _ => none
  | fuel + 1, input =>
    match skipJsonWs input with
    | '"' :: rest =>
      match parseStrChars (fuel + 1) rest with
      | none => none
      | some (key, rem) =>
        match skipJsonWs rem with
        | ':' :: rem2 =>
          match parseJsonVal fuel rem2 with
          | none => none
          | some (v, rem3) =>
            match skipJsonWs rem3 with
            | ',' :: rem4 =>
              match parseJsonFields fuel rem4 with
              | some (fs, rem5) => some ((⟨key⟩, v) :: fs, rem5)
              | none => none
            | d :: rem4 =>
              if d = '\x7d' then some ([(⟨key⟩, v)], rem4) else none
            | [] => none
        | _ => none
    | _ => none

end

/-- Model of JSON.parse: the whole input (up to trailing whitespace) must be
    one JSON value. -/
def jsonParse (s : String) : Option Json :=
  match parseJsonVal (s.length + 1) s.data with
  | some (v, rest) => if skipJsonWs rest = [] then some v else none
  | none => none

/-- Property lookup on a parsed object.  JSON.parse keeps the last binding
    of a duplicated key, hence the reversed search. -/
def jsonField (j : Json) (k : String) : Option Json :=
  match j with
  | Json.obj fields => (fields.reverse.find? (fun p => p.1 == k)).map (fun p => p.2)
  | _ => none

/-- The check parsedOutput and (parsedOutput.status === "success" or
    parsedOutput.status === "error") from the stdout handlers. -/
def statusFinal (j : Json) : Bool :=
  match jsonField j "status" with
  | some (Json.str s) => s == "success" || s == "error"
  | _ => false

/-- Property assignment on a parsed object (parsedOutput.pluginStderr = ...).
    Assigning on a non object is a no-op in the model; the handlers only
    assign after statusFinal has established an object. -/
def setJsonField (j : Json) (k : String) (v : Json) : Json :=
  match j with
  | Json.obj fields =>
    if fields.any (fun p => p.1 == k) then
      Json.obj (fields.map (fun p => if p.1 == k then (k, v) else p))
    else Json.obj (fields ++ [(k, v)])
  | other => other

/-! ## Association lists as JavaScript objects and Maps

JavaScript objects and Maps are modelled as insertion-ordered association
lists with first-match lookup; set overwrites in place or appends. -/

def lookupAssoc {β : Type} (l : List (String × β)) (k : String) : Option β :=
  (l.find? (fun p => p.1 == k)).map (fun p => p.2)

def hasAssoc {β : Type} (l : List (String × β)) (k : String) : Bool :=
  l.any (fun p => p.1 == k)

def setAssoc {β : Type} (l : List (String × β)) (k : String) (v : β) :
    List (String × β) :=
  if l.any (fun p => p.1 == k) then l.map (fun p => if p.1 == k then (k, v) else p)
  else l ++ [(k, v)]

def delAssoc {β : Type} (l : List (String × β)) (k : String) : List (String × β) :=
  l.filter (fun p => p.1 ≠ k)

/-! ## Effective plugin configuration (PluginManager._getPluginConfig) -/

def lookupStr (l : List (String × String)) (k : String) : Option String :=
  lookupAssoc l k

def hasKeyStr (l : List (String × String)) (k : String) : Bool :=
  hasAssoc l k

/-- A computed config value: raw string, coerced integer, coerced boolean,
    or the JavaScript undefined stored by a failed integer parse. -/
inductive CVal where
  | vStr (s : String)
  | vInt (n : Int)
  | vBool (b : Bool)
  | vUndef
deriving Repr, DecidableEq

/-- The slice of a plugin manifest that _getPluginConfig consults.
    configSchema = none models a manifest without a configSchema field. -/
structure ManifestCfg where
  name : String
  configSchema : Option (List (String × String))
  pluginSpecificEnvConfig : List (String × String)

def setCVal (cfg : List (String × CVal)) (k : String) (v : CVal) : List (String × CVal) :=
  setAssoc cfg k v

def lookupCVal (cfg : List (String × CVal)) (k : String) : Option CVal :=
  lookupAssoc cfg k

/-- Declared-type coercion: parseInt for integer (NaN becomes undefined),
    case-insensitive comparison with "true" for boolean, raw otherwise. -/
def coerceConfigValue (expectedType raw : String) : CVal :=
  if expectedType == "integer" then
    match jsParseInt raw with
    | some n => CVal.vInt n
    | none => CVal.vUndef
  else if expectedType == "boolean" then CVal.vBool (jsToLower raw == "true")
  else CVal.vStr raw

def configStep (pse globalEnv : List (String × String))
    (cfg : List (String × CVal)) (kv : String × String) : List (String × CVal) :=
  match lookupStr pse kv.1 with
  | some raw => setCVal cfg kv.1 (coerceConfigValue kv.2 raw)
  | none =>
    match lookupStr globalEnv kv.1 with
    | some raw => setCVal cfg kv.1 (coerceConfigValue kv.2 raw)
    | none => cfg

/-- Model of PluginManager._getPluginConfig: the schema loop followed by the
    DebugMode fallback block. -/
def getPluginConfig (globalEnv : List (String × String)) (m : ManifestCfg) :
    List (String × CVal) :=
  let base :=
    match m.configSchema with
    | none => []
    | some schema => schema.foldl (configStep m.pluginSpecificEnvConfig globalEnv) []
  match lookupStr m.pluginSpecificEnvConfig "DebugMode" with
  | some raw => setCVal base "DebugMode" (CVal.vBool (jsToLower raw == "true"))
  | none =>
    match lookupStr globalEnv "DebugMode" with
    | some raw => setCVal base "DebugMode" (CVal.vBool (jsToLower raw == "true"))
    | none =>
      if hasAssoc base "DebugMode" then base
      else setCVal base "DebugMode" (CVal.vBool false)

/-- The value the first-defined-of chain assigns to a schema key of declared
    type ty, before any DebugMode special-casing (reading of the spec). -/
def effectiveConfigSpec (pse globalEnv : List (String × String)) (k ty : String) :
    Option CVal :=
  match lookupStr pse k with
  | some raw => some (coerceConfigValue ty raw)
  | none => (lookupStr globalEnv k).map (coerceConfigValue ty)

/-- The DebugMode resolution the source implements: plugin env first, then
    process env, else false; always a boolean. -/
def debugModeSpec (pse globalEnv : List (String × String)) : Bool :=
  match lookupStr pse "DebugMode" with
  | some raw => jsToLower raw == "true"
  | none =>
    match lookupStr globalEnv "DebugMode" with
    | some raw => jsToLower raw == "true"
    | none => false

/-! ## Static placeholder refresh (PluginManager._updateStaticPluginValue)

One placeholder slot: given the outcome of _executeStaticPluginCommand and
the current table entry, the per-placeholder branch of the forEach loop
computes the new table entry. -/

inductive StaticExec where
  | succeeded (output : String)
  | failed (message : String)
deriving Repr, DecidableEq

def errorSentinel (pluginName errMsg : String) : String :=
  "[Error updating " ++ pluginName ++ ": " ++ jsTake errMsg 100 ++ "...]"

def unavailableSentinel (pluginName : String) : String :=
  "[" ++ pluginName ++ " data currently unavailable]"

/-- Per-placeholder update rule.  Note the source tests the prior value with
    JavaScript truthiness in the error branch (so the empty string counts as
    absent there) but with Map.has in the empty-output branch. -/
def updateStaticPlaceholder (pluginName : String) (res : StaticExec)
    (current : Option String) : Option String :=
  match res with
  | StaticExec.succeeded out =>
    if jsTrim out ≠ "" then some (jsTrim out)
    else
      match current with
      | none => some (unavailableSentinel pluginName)
      | some v => some v
  | StaticExec.failed msg =>
    match current with
    | none => some (errorSentinel pluginName msg)
    | some c =>
      if c == "" || jsStartsWith c "[Error" then some (errorSentinel pluginName msg)
      else some c

/-! ## The manifest map and its operations

this.plugins is a JavaScript Map keyed by plugin name, modelled as an
association list in insertion order with first-match lookup.  The fields
kept are exactly the ones the claims consult; entryPoint presence is the
truthiness test the source applies. -/

structure PManifest where
  name : String
  displayName : String
  pluginType : String
  hasEntryPoint : Bool
  isDistributed : Bool
  serverId : Option String
deriving Repr, DecidableEq

abbrev PluginMap := List (String × PManifest)

def mapHas (m : PluginMap) (k : String) : Bool :=
  hasAssoc m k

def mapGet (m : PluginMap) (k : String) : Option PManifest :=
  lookupAssoc m k

/-- JavaScript Map.set: overwrite in place when the key exists, else append. -/
def mapSet (m : PluginMap) (k : String) (v : PManifest) : PluginMap :=
  setAssoc m k v

def mapKeys (m : PluginMap) : List String :=
  m.map Prod.fst

/-- The not-manifest.name / not-manifest.pluginType / not-manifest.entryPoint
    validity test (empty strings are falsy). -/
def manifestInvalid (mf : PManifest) : Bool :=
  mf.name == "" || mf.pluginType == "" || !mf.hasEntryPoint

/-- One directory of the plugin root: none models a folder whose manifest is
    missing or unparsable; the Bool fields record whether the entry point
    declares a script with direct protocol, whether require of that script
    succeeds, and whether the loaded module exports processMessages. -/
structure DiskEntry where
  manifest : Option PManifest
  directScript : Bool
  moduleLoads : Bool
  hasProcessMessages : Bool
deriving Repr, DecidableEq

structure ScanResult where
  plugins : PluginMap
  discoveredPreprocessors : List String
  serviceModules : List String
deriving Repr, DecidableEq

def isPreprocessorType (t : String) : Bool :=
  t == "messagePreprocessor" || t == "hybridservice"

def isServiceType (t : String) : Bool :=
  t == "service" || t == "hybridservice"

def scanStep (acc : ScanResult) (entry : DiskEntry) : ScanResult :=
  match entry.manifest with
  | none => acc
  | some mf =>
    if manifestInvalid mf then acc
    else if mapHas acc.plugins mf.name then acc
    else
      let acc1 : ScanResult := { acc with plugins := mapSet acc.plugins mf.name mf }
      let isPre := isPreprocessorType mf.pluginType
      let isSvc := isServiceType mf.pluginType
      if (isPre || isSvc) && entry.directScript && entry.moduleLoads then
        let acc2 :=
          if isPre && entry.hasProcessMessages then
            { acc1 with discoveredPreprocessors := acc1.discoveredPreprocessors ++ [mf.name] }
          else acc1
        if isSvc then { acc2 with serviceModules := acc2.serviceModules ++ [mf.name] }
        else acc2
      else acc1

/-- The discovery loop of loadPlugins: the prior map filtered by the
    not-isDistributed test, then each plugin folder processed in directory
    order with the validity and collision skips of the source. -/
def scanPlugins (prior : PluginMap) (disk : List DiskEntry) : ScanResult :=
  disk.foldl scanStep
    { plugins := prior.filter (fun p => !p.2.isDistributed),
      discoveredPreprocessors := [], serviceModules := [] }

/-- The manifest-map component of loadPlugins alone. -/
def loadPluginsMap (prior : PluginMap) (disk : List DiskEntry) : PluginMap :=
  (scanPlugins prior disk).plugins

/-! ## Distributed registry operations -/

/-- One incoming manifest of registerDistributedTools: validity check, name
    collision skip, then insertion with the distributed marks and the
    decorated display name. -/
def registerStep (serverId : String) (ps : PluginMap) (t : PManifest) : PluginMap :=
  if manifestInvalid t then ps
  else if mapHas ps t.name then ps
  else
    mapSet ps t.name
      { t with
        isDistributed := true,
        serverId := some serverId,
        displayName := "[云端] " ++ (if t.displayName == "" then t.name else t.displayName) }

/-- Model of PluginManager.registerDistributedTools. -/
def registerDistributedTools (plugins : PluginMap) (serverId : String)
    (tools : List PManifest) : PluginMap :=
  tools.foldl (registerStep serverId) plugins

abbrev PlaceholderTable := List (String × String)

def setAssocStr (t : PlaceholderTable) (k v : String) : PlaceholderTable :=
  setAssoc t k v

/-- Model of PluginManager.updateDistributedStaticPlaceholders: each supplied
    pair is stored under its plain key.  The source also computes the local
    distributedKey = placeholder ++ "@@" ++ serverId but never stores it. -/
def updateDistributedStaticPlaceholders (table : PlaceholderTable)
    (placeholders : List (String × String)) : PlaceholderTable :=
  placeholders.foldl (fun t kv => setAssocStr t kv.1 kv.2) table

/-- Model of PluginManager.clearDistributedStaticPlaceholders: collect the
    keys whose companion key k ++ "@@" ++ serverId is present, then delete
    the collected keys. -/
def clearDistributedStaticPlaceholders (table : PlaceholderTable)
    (serverId : String) : PlaceholderTable :=
  let placeholdersToRemove :=
    (table.filter (fun kv => hasKeyStr table (kv.1 ++ "@@" ++ serverId))).map Prod.fst
  placeholdersToRemove.foldl (fun t k => t.filter (fun kv => kv.1 ≠ k)) table

/-- Model of PluginManager.unregisterAllDistributedTools: delete every map
    entry with isDistributed and the matching serverId, then clear the
    distributed placeholders. -/
def unregisterAllDistributedTools (plugins : PluginMap) (table : PlaceholderTable)
    (serverId : String) : PluginMap × PlaceholderTable :=
  (plugins.filter (fun p => !(p.2.isDistributed && p.2.serverId == some serverId)),
   clearDistributedStaticPlaceholders table serverId)

/-! ## Preprocessor order reconciliation (loadPlugins, lines 405-450) -/

/-- The pass over the saved order: a saved name still available is pushed to
    the final order and deleted from the available set; other names are
    dropped. -/
def reconSavedPass (available : List String) : List String → List String × List String
  | [] => ([], available)
  | name :: rest =>
    if available.contains name then
      let p := reconSavedPass (available.erase name) rest
      (name :: p.1, p.2)
    else reconSavedPass available rest

def sortNames (l : List String) : List String :=
  List.insertionSort (fun a b => a ≤ b) l

/-- Order-file contents: none = the file does not exist; some none = the file
    exists but is unreadable or not a JSON array; some (some l) = a JSON
    array of names. -/
abbrev OrderFile := Option (Option (List String))

/-- Model of the ordering logic of loadPlugins: the reconciled order and the
    write performed on the order file (none = no write).  The source writes
    the file only when it did not exist and the final order is non-empty. -/
def reconcileOrder (discovered : List String) (orderFile : OrderFile) :
    List String × Option (List String) :=
  let pass :=
    match orderFile with
    | some (some saved) => reconSavedPass discovered saved
    | _ => ([], discovered)
  let finalOrder := pass.1 ++ sortNames pass.2
  let write :=
    match orderFile with
    | none => if finalOrder.length > 0 then some finalOrder else none
    | some _ => none
  (finalOrder, write)

/-! ## The full loadPlugins state transition -/

structure PMState where
  plugins : PluginMap
  staticPlaceholderValues : PlaceholderTable
  messagePreprocessors : List String
  serviceModules : List String
  preprocessorOrder : List String
deriving Repr, DecidableEq

/-- Model of PluginManager.loadPlugins on the manager state: the distributed
    filter and the three map clears, the directory scan, the order
    reconciliation and the preprocessor-map refill.  The second component is
    the write performed on the order file. -/
def loadPluginsState (st : PMState) (disk : List DiskEntry) (orderFile : OrderFile) :
    PMState × Option (List String) :=
  let scan := scanPlugins st.plugins disk
  let recon := reconcileOrder scan.discoveredPreprocessors orderFile
  ({ plugins := scan.plugins,
     staticPlaceholderValues := [],
     messagePreprocessors := recon.1,
     serviceModules := scan.serviceModules,
     preprocessorOrder := recon.1 },
   recon.2)

/-! ## The stdio executor event machine (PluginManager.executePlugin)

The Promise body of executePlugin reacts to stdout data events, stderr data
events and the process exit event.  The machine below folds those events
through the handler logic; settles records every resolve / reject the
handlers issue, in order.  The timeout timer is outside the modelled trace:
its kill surfaces to the handlers as an exit event with signal SIGKILL. -/

inductive Settle where
  | resolvedJson (j : Json)
  | rejectedMsg (msg : String)
deriving Repr

structure ExecState where
  outputBuffer : String
  errorOutput : String
  processExited : Bool
  initialResponseSent : Bool
  settles : List Settle
deriving Repr

def execInit : ExecState :=
  { outputBuffer := "", errorOutput := "", processExited := false,
    initialResponseSent := false, settles := [] }

inductive PEvent where
  | stdoutData (s : String)
  | stderrData (s : String)
  | procExit (code : Int) (signal : Option String)
deriving Repr

def findCandEnd : List Char → Option Nat
  | [] => none
  | c :: rest =>
    if c = '\x7d' && (match rest with | [] => true | d :: _ => jsWsChar d) then some 0
    else
      match findCandEnd rest with
      | some n => some (n + 1)
      | none => none

def firstCandAux : List Char → Option (List Char)
  | [] => none
  | c :: rest =>
    if c = '\x7b' then
      match findCandEnd rest with
      | some j => some (c :: rest.take (j + 1))
      | none => none
    else firstCandAux rest

/-- The candidate the stdout handler's regex extracts from the buffer: the
    non-greedy brace group starting at the first opening brace and ending at
    the first closing brace followed by whitespace or the end of input. -/
def firstJsonCandidate (s : String) : Option String :=
  (firstCandAux s.data).map (fun l => ⟨l⟩)

/-- The stdout data handler.  For a synchronous plugin the candidate scan
    only logs, so the state change reduces to the buffer append; for an
    asynchronous plugin the first candidate that parses to a status object
    resolves the promise and raises initialResponseSent. -/
def onStdoutData (isAsync : Bool) (st : ExecState) (data : String) : ExecState :=
  if st.processExited || (isAsync && st.initialResponseSent) then st
  else
    let base : ExecState := { st with outputBuffer := st.outputBuffer ++ data }
    if isAsync then
      match firstJsonCandidate base.outputBuffer with
      | some cand =>
        match jsonParse cand with
        | some parsed =>
          if statusFinal parsed && !st.initialResponseSent then
            { base with
              initialResponseSent := true,
              settles := base.settles ++ [Settle.resolvedJson parsed] }
          else base
        | none => base
      | none => base
    else base

def timedOutOrKilledMsg (pluginName : String) : String :=
  "Plugin \"" ++ pluginName ++ "\" execution timed out or was killed."

def exitZeroNoJsonMsg (pluginName buffer : String) : String :=
  "Plugin \"" ++ pluginName ++
    "\" exited successfully but did not provide a valid initial JSON response. Stdout: " ++
    jsTake (jsTrim buffer) 200

def exitNonZeroMsg (pluginName : String) (code : Int) (buffer stderrBuf : String) : String :=
  "Plugin \"" ++ pluginName ++ "\" exited with code " ++ toString code ++ "." ++
    (if jsTrim buffer ≠ "" then " Stdout: " ++ jsTake (jsTrim buffer) 200 else "") ++
    (if jsTrim stderrBuf ≠ "" then " Stderr: " ++ jsTake (jsTrim stderrBuf) 200 else "")

/-- The reject issued when the accumulated stdout is not a status object. -/
def exitNoJsonSettle (pluginName : String) (st : ExecState) (code : Int) : ExecState :=
  if st.initialResponseSent then st
  else if code ≠ 0 then
    { st with settles := st.settles ++
        [Settle.rejectedMsg (exitNonZeroMsg pluginName code st.outputBuffer st.errorOutput)] }
  else
    { st with settles := st.settles ++
        [Settle.rejectedMsg (exitZeroNoJsonMsg pluginName st.outputBuffer)] }

/-- The resolved value at exit: the parsed object with the stderr tail
    attached as pluginStderr when stderr is non-empty. -/
def attachStderrField (p : Json) (stderrBuf : String) : Json :=
  if jsTrim stderrBuf ≠ "" then setJsonField p "pluginStderr" (Json.str (jsTrim stderrBuf))
  else p

/-- The process exit handler. -/
def onProcExit (isAsync : Bool) (pluginName : String) (st : ExecState)
    (code : Int) (signal : Option String) : ExecState :=
  let st1 : ExecState := { st with processExited := true }
  if isAsync && st1.initialResponseSent then st1
  else if signal == some "SIGKILL" then
    if st1.initialResponseSent then st1
    else { st1 with settles := st1.settles ++
            [Settle.rejectedMsg (timedOutOrKilledMsg pluginName)] }
  else
    match jsonParse (jsTrim st1.outputBuffer) with
    | some parsed =>
      if statusFinal parsed then
        if st1.initialResponseSent then st1
        else
          { st1 with settles := st1.settles ++
              [Settle.resolvedJson (attachStderrField parsed st1.errorOutput)] }
      else exitNoJsonSettle pluginName st1 code
    | none => exitNoJsonSettle pluginName st1 code

def execStep (isAsync : Bool) (pluginName : String) (st : ExecState) :
    PEvent → ExecState
  | PEvent.stdoutData s => onStdoutData isAsync st s
  | PEvent.stderrData s => { st with errorOutput := st.errorOutput ++ s }
  | PEvent.procExit code signal => onProcExit isAsync pluginName st code signal

def execRun (isAsync : Bool) (pluginName : String) (events : List PEvent) : ExecState :=
  events.foldl (execStep isAsync pluginName) execInit

def isExitEvent : PEvent → Bool
  | PEvent.procExit _ _ => true
  | _ => false

def exitCount (events : List PEvent) : Nat :=
  events.countP isExitEvent

def concatStdout : List PEvent → String
  | [] => ""
  | PEvent.stdoutData s :: rest => s ++ concatStdout rest
  | _ :: rest => concatStdout rest

def concatStderr : List PEvent → String
  | [] => ""
  | PEvent.stderrData s :: rest => s ++ concatStderr rest
  | _ :: rest => concatStderr rest

/-! ## The tool-call dispatcher retry loop (PluginManager.processToolCall)

The local stdio error path of processToolCall, with the plugin behaviour
abstracted as a function from the argument object to the stdout payload,
and FileFetcherServer.fetchFile composed with the base64 data-URI
construction abstracted as fetchUri.  The recursive retry re-enters
processToolCall; fuel bounds the modelled recursion depth. -/

structure StdioOutput where
  status : String
  error : Option String
  code : Option String
  fileUrl : Option String
  failedParameter : Option String
deriving Repr, DecidableEq

abbrev ToolArgs := List (String × String)

def argGet (args : ToolArgs) (k : String) : Option String :=
  lookupAssoc args k

def argTruthy (args : ToolArgs) (k : String) : Bool :=
  match argGet args k with
  | some v => v ≠ ""
  | none => false

def argDelete (args : ToolArgs) (k : String) : ToolArgs :=
  delAssoc args k

def argSet (args : ToolArgs) (k v : String) : ToolArgs :=
  setAssoc args k v

def optTruthy (o : Option String) : Bool :=
  match o with
  | some s => s ≠ ""
  | none => false

/-- The argument rewrite before the retry: when failedParameter names a
    truthy argument, that argument is deleted and image_base64_N added with
    N recovered by dropping image_url_ from the name; otherwise the legacy
    image_url / image_base64 fallback. -/
def retryArgs (args : ToolArgs) (failedParameter : Option String) (dataUri : String) :
    ToolArgs :=
  match failedParameter with
  | some fp =>
    if fp ≠ "" && argTruthy args fp then
      argSet (argDelete args fp) ("image_base64_" ++ jsReplaceFirst fp "image_url_") dataUri
    else argSet (argDelete args "image_url") "image_base64" dataUri
  | none => argSet (argDelete args "image_url") "image_base64" dataUri

inductive ToolOutcome where
  | succeeded (out : StdioOutput)
  | pluginError (msg : String)
  | fetchFailed (originalError : Option String) (fetchError : String)
  | fuelExhausted
deriving Repr, DecidableEq

def unspecifiedErrorMsg : String :=
  "Plugin reported an unspecified error."

/-- The sentinel test of the error branch:
    pluginOutput.code === "FILE_NOT_FOUND_LOCALLY" and truthy fileUrl and
    truthy requestIp. -/
def sentinelHit (out : StdioOutput) (requestIp : Option String) : Bool :=
  out.code == some "FILE_NOT_FOUND_LOCALLY" && optTruthy out.fileUrl && optTruthy requestIp

/-- Model of the local stdio branch of processToolCall.  The first component
    lists the argument objects of every plugin invocation performed, in
    order; the second is the final outcome. -/
def processLocalToolCall (exec : ToolArgs → StdioOutput)
    (fetchUri : String → Except String String) :
    Nat → ToolArgs → Option String → List ToolArgs × ToolOutcome
  | 0, _, _ => ([], ToolOutcome.fuelExhausted)
  | fuel + 1, args, requestIp =>
    let out := exec args
    if out.status == "success" then ([args], ToolOutcome.succeeded out)
    else if sentinelHit out requestIp then
      match fetchUri (out.fileUrl.getD "") with
      | Except.error fetchErr => ([args], ToolOutcome.fetchFailed out.error fetchErr)
      | Except.ok dataUri =>
        let next := processLocalToolCall exec fetchUri fuel
          (retryArgs args out.failedParameter dataUri) requestIp
        (args :: next.1, next.2)
    else ([args], ToolOutcome.pluginError (out.error.getD unspecifiedErrorMsg))

/-- Whether a string parses as a status object (the condition under which
    the exit handler trusts stdout over the exit code). -/
def jsonStatusOk (s : String) : Bool :=
  match jsonParse s with
  | some p => statusFinal p
  | none => false

/-- One-step unfolding of processLocalToolCall at positive fuel. -/
def processLocalToolCallSucc (exec : ToolArgs → StdioOutput)
    (fetchUri : String → Except String String) (fuel : Nat) (args : ToolArgs)
    (requestIp : Option String) : List ToolArgs × ToolOutcome :=
  let out := exec args
  if out.status == "success" then ([args], ToolOutcome.succeeded out)
  else if sentinelHit out requestIp then
    match fetchUri (out.fileUrl.getD "") with
    | Except.error fetchErr => ([args], ToolOutcome.fetchFailed out.error fetchErr)
    | Except.ok dataUri =>
      let next := processLocalToolCall exec fetchUri fuel
        (retryArgs args out.failedParameter dataUri) requestIp
      (args :: next.1, next.2)
  else ([args], ToolOutcome.pluginError (out.error.getD unspecifiedErrorMsg))

/-! ## Concrete instances used by counterexamples and witnesses -/

def exLocalOld : PManifest :=
  { name := "L", displayName := "Local v1", pluginType := "synchronous",
    hasEntryPoint := true, isDistributed := false, serverId := none }

/-- The same local plugin after its manifest file was edited on disk. -/
def exLocalNew : PManifest :=
  { exLocalOld with displayName := "Local v2" }

def exRemote : PManifest :=
  { name := "T", displayName := "[云端] T", pluginType := "synchronous",
    hasEntryPoint := true, isDistributed := true, serverId := some "S1" }

def exDiskL : DiskEntry :=
  { manifest := some exLocalNew, directScript := false, moduleLoads := false,
    hasProcessMessages := false }

def exToolDup : PManifest :=
  { name := "L", displayName := "remote L", pluginType := "synchronous",
    hasEntryPoint := true, isDistributed := false, serverId := none }

def exToolNew : PManifest :=
  { name := "W", displayName := "remote W", pluginType := "synchronous",
    hasEntryPoint := true, isDistributed := false, serverId := none }

def c4Success : StdioOutput :=
  { status := "success", error := none, code := none, fileUrl := none,
    failedParameter := none }

def c4Err1 : StdioOutput :=
  { status := "error", error := some "file not found a",
    code := some "FILE_NOT_FOUND_LOCALLY", fileUrl := some "file:///a.png",
    failedParameter := some "image_url_1" }

def c4Err2 : StdioOutput :=
  { status := "error", error := some "file not found b",
    code := some "FILE_NOT_FOUND_LOCALLY", fileUrl := some "file:///b.png",
    failedParameter := some "image_url_2" }

/-- A plugin that reports the file-not-found sentinel for image_url_1, then
    (once that was replaced) for image_url_2, then succeeds. -/
def c4exec (args : ToolArgs) : StdioOutput :=
  if argTruthy args "image_base64_2" then c4Success
  else if argTruthy args "image_base64_1" then c4Err2
  else c4Err1

def c4fetch (_ : String) : Except String String :=
  Except.ok "data:image/png;base64,QUJD"

def c4args : ToolArgs :=
  [("image_url_1", "file:///a.png"), ("image_url_2", "file:///b.png")]

def c4run : List ToolArgs × ToolOutcome :=
  processLocalToolCall c4exec c4fetch 10 c4args (some "10.0.0.7")

def c5ackJson : Json :=
  Json.obj [("status", Json.str "success"), ("result", Json.str "queued")]

def c5pre : List PEvent :=
  [PEvent.stdoutData "\x7b\"status\":\"success\",\"result\":\"queued\"\x7d\n"]

def c5post : List PEvent :=
  [PEvent.stdoutData "\x7b\"status\":\"error\",\"error\":\"late\"\x7d\n",
   PEvent.procExit 0 none]

/-! ## Association list lemmas -/

theorem lookupAssoc_cons {β : Type} (p : String × β) (l : List (String × β)) (k : String) :
    lookupAssoc (p :: l) k = if p.1 == k then some p.2 else lookupAssoc l k := by
  by_cases h : p.1 == k
  · simp [lookupAssoc, List.find?_cons_of_pos, h]
  · simp [lookupAssoc, List.find?_cons_of_neg, h]

theorem hasAssoc_cons {β : Type} (p : String × β) (l : List (String × β)) (k : String) :
    hasAssoc (p :: l) k = (p.1 == k || hasAssoc l k) := by
  simp [hasAssoc]

theorem lookupAssoc_none_of_not_has {β : Type} (l : List (String × β)) (k : String)
    (h : hasAssoc l k = false) : lookupAssoc l k = none := by
  induction l with
  | nil => rfl
  | cons p rest ih =>
    rw [hasAssoc_cons] at h
    rcases Bool.or_eq_false_iff.mp h with ⟨h1, h2⟩
    rw [lookupAssoc_cons, if_neg (by simp [h1]), ih h2]

theorem lookupAssoc_append_left {β : Type} (l l2 : List (String × β)) (k : String) (v : β)
    (h : lookupAssoc l k = some v) : lookupAssoc (l ++ l2) k = some v := by
  induction l with
  | nil => simp [lookupAssoc] at h
  | cons p rest ih =>
    rw [lookupAssoc_cons] at h
    rw [List.cons_append, lookupAssoc_cons]
    by_cases hp : p.1 == k
    · rwa [if_pos hp] at h ⊢
    · rw [if_neg hp] at h ⊢
      exact ih h

theorem lookupAssoc_append_right {β : Type} (l l2 : List (String × β)) (k : String)
    (h : hasAssoc l k = false) : lookupAssoc (l ++ l2) k = lookupAssoc l2 k := by
  induction l with
  | nil => rfl
  | cons p rest ih =>
    rw [hasAssoc_cons] at h
    rcases Bool.or_eq_false_iff.mp h with ⟨h1, h2⟩
    rw [List.cons_append, lookupAssoc_cons, if_neg (by simp [h1]), ih h2]

theorem setAssoc_of_not_has {β : Type} (l : List (String × β)) (k : String) (v : β)
    (h : hasAssoc l k = false) : setAssoc l k v = l ++ [(k, v)] := by
  unfold setAssoc
  rw [show l.any (fun p => p.1 == k) = hasAssoc l k from rfl, h]
  simp

theorem lookupAssoc_map_subst_self {β : Type} (l : List (String × β)) (k : String) (v : β)
    (h : l.any (fun p => p.1 == k) = true) :
    lookupAssoc (l.map (fun p => if p.1 == k then (k, v) else p)) k = some v := by
  induction l with
  | nil => simp at h
  | cons p rest ih =>
    rw [List.any_cons, Bool.or_eq_true] at h
    by_cases hp : p.1 == k
    · simp only [List.map_cons, if_pos hp]
      rw [lookupAssoc_cons]
      simp
    · simp only [List.map_cons, if_neg hp]
      rw [lookupAssoc_cons, if_neg hp]
      exact ih (h.resolve_left (by simp [hp]))

theorem lookupAssoc_map_subst_other {β : Type} (l : List (String × β)) (k k2 : String) (v : β)
    (hne : k2 ≠ k) :
    lookupAssoc (l.map (fun p => if p.1 == k then (k, v) else p)) k2 = lookupAssoc l k2 := by
  induction l with
  | nil => rfl
  | cons p rest ih =>
    by_cases hp : p.1 == k
    · simp only [List.map_cons, if_pos hp]
      rw [lookupAssoc_cons, lookupAssoc_cons]
      have hp1 : p.1 = k := by simpa using hp
      have hk2 : (k == k2) = false := by
        simp only [beq_eq_false_iff_ne, ne_eq]
        exact Ne.symm hne
      have hpk2 : (p.1 == k2) = false := by
        rw [hp1]
        exact hk2
      rw [hk2, hpk2]
      simpa using ih
    · simp only [List.map_cons, if_neg hp]
      rw [lookupAssoc_cons, lookupAssoc_cons]
      by_cases hq : p.1 == k2
      · rw [if_pos hq, if_pos hq]
      · rw [if_neg hq, if_neg hq]
        exact ih

theorem lookupAssoc_setAssoc_self {β : Type} (l : List (String × β)) (k : String) (v : β) :
    lookupAssoc (setAssoc l k v) k = some v := by
  unfold setAssoc
  by_cases h : l.any (fun p => p.1 == k)
  · rw [if_pos h]
    exact lookupAssoc_map_subst_self l k v h
  · rw [if_neg h]
    have hf : hasAssoc l k = false := Bool.eq_false_iff.mpr h
    rw [lookupAssoc_append_right l [(k, v)] k hf]
    rw [lookupAssoc_cons]
    simp

theorem hasAssoc_false_of_lookup_none {β : Type} (l : List (String × β)) (k : String)
    (h : lookupAssoc l k = none) : hasAssoc l k = false := by
  induction l with
  | nil => rfl
  | cons p rest ih =>
    rw [lookupAssoc_cons] at h
    by_cases hp : p.1 == k
    · rw [if_pos hp] at h
      exact Option.noConfusion h
    · rw [if_neg hp] at h
      rw [hasAssoc_cons, Bool.eq_false_iff.mpr hp, Bool.false_or]
      exact ih h

theorem lookupAssoc_setAssoc_other {β : Type} (l : List (String × β)) (k k2 : String) (v : β)
    (hne : k2 ≠ k) : lookupAssoc (setAssoc l k v) k2 = lookupAssoc l k2 := by
  unfold setAssoc
  by_cases h : l.any (fun p => p.1 == k)
  · rw [if_pos h]
    exact lookupAssoc_map_subst_other l k k2 v hne
  · rw [if_neg h]
    cases hv : lookupAssoc l k2 with
    | some v2 => exact lookupAssoc_append_left l [(k, v)] k2 v2 hv
    | none =>
      rw [lookupAssoc_append_right l [(k, v)] k2 (hasAssoc_false_of_lookup_none l k2 hv)]
      rw [lookupAssoc_cons]
      have hk2 : (k == k2) = false := by
        simp only [beq_eq_false_iff_ne, ne_eq]
        exact Ne.symm hne
      rw [hk2]
      simp only [Bool.false_eq_true, if_false]
      rfl

theorem keys_map_subst {β : Type} (l : List (String × β)) (k : String) (v : β) :
    (l.map (fun p => if p.1 == k then (k, v) else p)).map Prod.fst = l.map Prod.fst := by
  induction l with
  | nil => rfl
  | cons p rest ih =>
    rw [List.map_cons, List.map_cons, List.map_cons]
    by_cases hp : p.1 == k
    · have hp1 : p.1 = k := by simpa using hp
      rw [if_pos hp, ih]
      show k :: _ = p.1 :: _
      rw [hp1]
    · rw [if_neg hp, ih]

theorem hasAssoc_eq_any_keys {β : Type} (l : List (String × β)) (k : String) :
    hasAssoc l k = (l.map Prod.fst).any (fun s => s == k) := by
  induction l with
  | nil => rfl
  | cons p rest ih =>
    rw [hasAssoc_cons, List.map_cons, List.any_cons, ih]

theorem hasAssoc_setAssoc_other {β : Type} (l : List (String × β)) (k k2 : String) (v : β)
    (hne : k2 ≠ k) : hasAssoc (setAssoc l k v) k2 = hasAssoc l k2 := by
  unfold setAssoc
  by_cases h : l.any (fun p => p.1 == k)
  · rw [if_pos h, hasAssoc_eq_any_keys, keys_map_subst, ← hasAssoc_eq_any_keys]
  · rw [if_neg h]
    unfold hasAssoc
    rw [List.any_append]
    have hk2 : ((k, v).1 == k2) = false := by
      simp only [beq_eq_false_iff_ne, ne_eq]
      exact Ne.symm hne
    simp [hk2]

theorem lookupAssoc_delAssoc_self {β : Type} (l : List (String × β)) (k : String) :
    lookupAssoc (delAssoc l k) k = none := by
  apply lookupAssoc_none_of_not_has
  unfold delAssoc hasAssoc
  rw [List.any_eq_false]
  intro p hp
  have h2 := (List.mem_filter.mp hp).2
  simp only [decide_eq_true_eq] at h2
  simp only [beq_eq_false_iff_ne, ne_eq, Bool.not_eq_true]
  simpa using h2

theorem lookupAssoc_delAssoc_other {β : Type} (l : List (String × β)) (k k2 : String)
    (hne : k2 ≠ k) : lookupAssoc (delAssoc l k) k2 = lookupAssoc l k2 := by
  induction l with
  | nil => rfl
  | cons p rest ih =>
    unfold delAssoc
    rw [List.filter_cons]
    by_cases hp : p.1 = k
    · have hd : (decide (p.1 ≠ k)) = false := by simp [hp]
      rw [hd]
      simp only [Bool.false_eq_true, if_false]
      have hpk2 : (p.1 == k2) = false := by
        simp only [beq_eq_false_iff_ne, ne_eq, hp]
        exact Ne.symm hne
      rw [lookupAssoc_cons, hpk2]
      simp only [Bool.false_eq_true, if_false]
      exact ih
    · have hd : (decide (p.1 ≠ k)) = true := by simp [hp]
      rw [hd]
      simp only [if_true]
      rw [lookupAssoc_cons, lookupAssoc_cons]
      by_cases hq : p.1 == k2
      · rw [if_pos hq, if_pos hq]
      · rw [if_neg hq, if_neg hq]
        exact ih

/-! ## Claim C1 -/

/-- Claim C1, evaluated at a failing input.  The claim states that a reload
    swaps the local half of the manifest map to the current directory
    contents while retaining every distributed entry.  The code does the
    opposite: starting from a map holding the stale local manifest of L and
    the distributed tool T (serverId S1), a reload over a directory whose
    only plugin is L with an edited manifest leaves the stale L entry in
    place (the fresh manifest is skipped by the collision check) and deletes
    the distributed entry T. -/
theorem c1_reload_drops_remote_and_keeps_stale_local :
    loadPluginsMap [("L", exLocalOld), ("T", exRemote)] [exDiskL] = [("L", exLocalOld)]
    ∧ exLocalNew ≠ exLocalOld
    ∧ mapGet (loadPluginsMap [("L", exLocalOld), ("T", exRemote)] [exDiskL]) "T" = none :=
  ⟨rfl, by decide, rfl⟩

/-! ## Claim C2 -/

/-- Claim C2 is false on the code: after session S1 pushes placeholder PH1
    via updateDistributedStaticPlaceholders and then ends, the manifest
    entries of S1 are gone but PH1 is still in the placeholder table,
    because the update stores only the plain key while the clear looks for
    the never-stored companion key PH1@@S1. -/
theorem c2_counterexample :
    (unregisterAllDistributedTools [("T1", exRemote)]
        (updateDistributedStaticPlaceholders [] [("PH1", "v")]) "S1")
      = ([], [("PH1", "v")]) := rfl

/-- Claim C2 amended: ending session S removes every distributed manifest
    entry with serverId S, but the placeholder clear removes a key only when
    its companion key k@@S is itself present in the table; a table without
    such companion keys (the situation updateDistributedStaticPlaceholders
    produces) is left entirely unchanged. -/
theorem c2_amended (plugins : PluginMap) (table : PlaceholderTable) (S : String) :
    ((unregisterAllDistributedTools plugins table S).1.all
        (fun p => !(p.2.isDistributed && p.2.serverId == some S))) = true
    ∧ ((table.all (fun kv => !hasKeyStr table (kv.1 ++ "@@" ++ S))) = true →
        (unregisterAllDistributedTools plugins table S).2 = table) := by
  constructor
  · rw [List.all_eq_true]
    intro p hp
    exact (List.mem_filter.mp hp).2
  · intro h
    show clearDistributedStaticPlaceholders table S = table
    unfold clearDistributedStaticPlaceholders
    have hnil : table.filter (fun kv => hasKeyStr table (kv.1 ++ "@@" ++ S)) = [] := by
      rw [List.filter_eq_nil_iff]
      intro kv hkv
      have hh := List.all_eq_true.mp h kv hkv
      simp only [Bool.not_eq_true'] at hh
      simp [hh]
    rw [hnil]
    rfl

/-- Witness for c2_amended at a session with one tool and one pushed
    placeholder. -/
theorem c2_amended_witness :
    ((unregisterAllDistributedTools [("T1", exRemote)] [("PH1", "v")] "S1").1.all
        (fun p => !(p.2.isDistributed && p.2.serverId == some "S1"))) = true
    ∧ (unregisterAllDistributedTools [("T1", exRemote)] [("PH1", "v")] "S1").2
        = [("PH1", "v")] :=
  ⟨(c2_amended [("T1", exRemote)] [("PH1", "v")] "S1").1,
   (c2_amended [("T1", exRemote)] [("PH1", "v")] "S1").2 (by decide)⟩

/-! ## Claim C3 -/

/-- Claim C3 is false on the code at the prior value "": the empty string is
    a present prior value and not an error sentinel, yet a failed refresh
    overwrites it with the error sentinel, because the error branch tests
    the prior value with JavaScript truthiness. -/
theorem c3_counterexample :
    updateStaticPlaceholder "P" (StaticExec.failed "boom") (some "")
        = some (errorSentinel "P" "boom")
    ∧ errorSentinel "P" "boom" ≠ ""
    ∧ jsStartsWith "" "[Error" = false :=
  ⟨rfl, by decide, rfl⟩

/-- Claim C3 amended: a non-empty new value replaces the prior value; an
    empty result with no prior value installs the unavailable sentinel; an
    empty result with an existing prior value keeps it; a failed execution
    installs an error sentinel exactly when the prior value is absent,
    empty, or itself an error sentinel, and otherwise keeps the stale
    value — in particular a non-empty, non-sentinel value survives both a
    failed refresh and an empty refresh. -/
theorem c3_amended (pluginName out msg : String) (cur : Option String) :
    (jsTrim out ≠ "" →
      updateStaticPlaceholder pluginName (StaticExec.succeeded out) cur = some (jsTrim out))
    ∧ (jsTrim out = "" → cur = none →
      updateStaticPlaceholder pluginName (StaticExec.succeeded out) cur
        = some (unavailableSentinel pluginName))
    ∧ (∀ v, jsTrim out = "" → cur = some v →
      updateStaticPlaceholder pluginName (StaticExec.succeeded out) cur = some v)
    ∧ (cur = none ∨ (∃ v, cur = some v ∧ (v = "" ∨ jsStartsWith v "[Error" = true)) →
      updateStaticPlaceholder pluginName (StaticExec.failed msg) cur
        = some (errorSentinel pluginName msg))
    ∧ (∀ v, cur = some v → v ≠ "" → jsStartsWith v "[Error" = false →
      updateStaticPlaceholder pluginName (StaticExec.failed msg) cur = some v
      ∧ updateStaticPlaceholder pluginName (StaticExec.succeeded "") cur = some v) := by
  refine ⟨?_, ?_, ?_, ?_, ?_⟩
  · intro h
    simp only [updateStaticPlaceholder]
    rw [if_pos h]
  · intro h hc
    simp only [updateStaticPlaceholder]
    rw [if_neg (fun hh => hh h), hc]
  · intro v h hc
    simp only [updateStaticPlaceholder]
    rw [if_neg (fun hh => hh h), hc]
  · intro h
    simp only [updateStaticPlaceholder]
    rcases h with hc | ⟨v, hc, hv⟩
    · rw [hc]
    · rw [hc]
      have hcond : (v == "" || jsStartsWith v "[Error") = true := by
        rcases hv with hv | hv
        · simp [hv]
        · simp [hv]
      simp only [hcond, if_true]
  · intro v hc hv1 hv2
    constructor
    · simp only [updateStaticPlaceholder]
      rw [hc]
      have hcond : (v == "" || jsStartsWith v "[Error") = false := by
        simp [hv1, hv2]
      simp only [hcond, Bool.false_eq_true, if_false]
    · simp only [updateStaticPlaceholder]
      rw [if_neg (fun hh => hh rfl), hc]

/-- Witness for c3_amended: a successful refresh replaces a stale value, a
    failed refresh keeps a non-sentinel stale value, and an empty first
    refresh installs the unavailable sentinel. -/
theorem c3_amended_witness :
    updateStaticPlaceholder "P" (StaticExec.succeeded " x ") (some "stale") = some "x"
    ∧ updateStaticPlaceholder "P" (StaticExec.failed "m") (some "stale") = some "stale"
    ∧ updateStaticPlaceholder "P" (StaticExec.succeeded "") none
        = some (unavailableSentinel "P") :=
  ⟨(c3_amended "P" " x " "m" (some "stale")).1 (by decide),
   ((c3_amended "P" " x " "m" (some "stale")).2.2.2.2 "stale" rfl (by decide) rfl).1,
   (c3_amended "P" "" "m" none).2.1 rfl rfl⟩

/-! ## Claim C6 -/

theorem contains_cons (a : String) (l : List String) (x : String) :
    (a :: l).contains x = (x == a || l.contains x) := by
  cases h : x == a <;> simp [List.contains, List.elem, h]

theorem contains_true_iff (l : List String) (x : String) :
    l.contains x = true ↔ x ∈ l := by
  induction l with
  | nil => simp [List.contains, List.elem]
  | cons a rest ih =>
    rw [contains_cons, Bool.or_eq_true, List.mem_cons, ih]
    constructor
    · rintro (h | h)
      · exact Or.inl (by simpa using h)
      · exact Or.inr h
    · rintro (h | h)
      · exact Or.inl (by simpa using h)
      · exact Or.inr h

theorem contains_eq_of_mem_iff (l l2 : List String) (x : String)
    (h : x ∈ l ↔ x ∈ l2) : l.contains x = l2.contains x := by
  cases hc : l2.contains x with
  | true => exact (contains_true_iff l x).mpr (h.mpr ((contains_true_iff l2 x).mp hc))
  | false =>
    cases hc2 : l.contains x with
    | true =>
      have hmem := h.mp ((contains_true_iff l x).mp hc2)
      have := (contains_true_iff l2 x).mpr hmem
      rw [hc] at this
      exact this.symm
    | false => rfl

/-- The saved-order pass computes the saved names still discovered, in saved
    order, and leaves exactly the undiscovered-by-the-file names available. -/
theorem reconSavedPass_eq (saved : List String) :
    ∀ av : List String, saved.Nodup → av.Nodup →
    reconSavedPass av saved
      = (saved.filter (fun n => av.contains n), av.filter (fun n => !saved.contains n)) := by
  induction saved with
  | nil =>
    intro av _ _
    simp [reconSavedPass, List.contains, List.elem]
  | cons name rest ih =>
    intro av hnd hav
    rcases List.nodup_cons.mp hnd with ⟨hname, hrest⟩
    simp only [reconSavedPass]
    cases hc : av.contains name with
    | true =>
      simp only [if_true]
      rw [ih (av.erase name) hrest (hav.erase name)]
      rw [List.filter_cons]
      simp only [hc, if_true]
      have e1 : List.filter (fun n => (av.erase name).contains n) rest
          = List.filter (fun n => av.contains n) rest :=
        List.filter_congr (fun x hx => contains_eq_of_mem_iff (av.erase name) av x
          (List.mem_erase_of_ne (fun he => hname (he ▸ hx))))
      have e2 : List.filter (fun n => !rest.contains n) (av.erase name)
          = List.filter (fun n => !(name :: rest).contains n) av := by
        rw [List.Nodup.erase_eq_filter hav name, List.filter_filter]
        apply List.filter_congr
        intro x hx
        rw [contains_cons]
        by_cases hx1 : x = name
        · simp [hx1]
        · have hb : (x == name) = false := by simpa using hx1
          simp [hb, hx1]
      rw [e1, e2]
    | false =>
      simp only [Bool.false_eq_true, if_false]
      rw [ih av hrest hav]
      rw [List.filter_cons]
      simp only [hc, Bool.false_eq_true, if_false]
      have hnav : name ∉ av := by
        intro hm
        have := (contains_true_iff av name).mpr hm
        rw [hc] at this
        exact Bool.noConfusion this
      have e2 : List.filter (fun n => !rest.contains n) av
          = List.filter (fun n => !(name :: rest).contains n) av := by
        apply List.filter_congr
        intro x hx
        rw [contains_cons]
        have hxn : (x == name) = false := by
          have : x ≠ name := fun he => hnav (he ▸ hx)
          simpa using this
        simp [hxn]
      rw [e2]

/-- Claim C6 is false on the code in its final clause: with an existing
    order file ["B","A","C"] and discovered preprocessors A, B, D the
    effective order is ["B","A","D"] as the claim states, but no write of
    the order file happens (the source creates the file only when it was
    absent), so the file is not rewritten to match. -/
theorem c6_counterexample :
    (reconcileOrder ["A", "B", "D"] (some (some ["B", "A", "C"]))).1 = ["B", "A", "D"]
    ∧ (reconcileOrder ["A", "B", "D"] (some (some ["B", "A", "C"]))).2 = none :=
  ⟨rfl, rfl⟩

/-- Claim C6 amended: the effective order is the saved names that are among
    the discovered preprocessors in saved order, followed by the remaining
    discovered names sorted; unknown names are dropped; the order file is
    written (with the effective order) only when it did not exist and the
    order is non-empty, and an existing file is never rewritten. -/
theorem c6_amended (discovered saved : List String)
    (h1 : saved.Nodup) (h2 : discovered.Nodup) :
    (reconcileOrder discovered (some (some saved))).1
        = saved.filter (fun n => discovered.contains n)
          ++ sortNames (discovered.filter (fun n => !saved.contains n))
    ∧ (reconcileOrder discovered (some (some saved))).2 = none
    ∧ (reconcileOrder discovered none).1 = sortNames discovered
    ∧ ((reconcileOrder discovered none).1 ≠ [] →
        (reconcileOrder discovered none).2 = some (sortNames discovered))
    ∧ List.Sorted (fun a b => a ≤ b)
        (sortNames (discovered.filter (fun n => !saved.contains n)))
    ∧ (sortNames (discovered.filter (fun n => !saved.contains n))).Perm
        (discovered.filter (fun n => !saved.contains n)) := by
  have hp := reconSavedPass_eq saved discovered h1 h2
  refine ⟨?_, rfl, rfl, ?_, ?_, ?_⟩
  · show (reconSavedPass discovered saved).1 ++ sortNames (reconSavedPass discovered saved).2 = _
    rw [hp]
  · intro h
    show (if (sortNames discovered).length > 0 then some (sortNames discovered) else none)
        = some (sortNames discovered)
    rw [if_pos (List.length_pos.mpr (by simpa using h))]
  · exact List.sorted_insertionSort _ _
  · exact List.perm_insertionSort _ _

/-- Witness for c6_amended at the order file of the spec scenario. -/
theorem c6_amended_witness :
    (reconcileOrder ["A", "B", "D"] (some (some ["B", "A", "C"]))).1
        = (["B", "A", "C"] : List String).filter
            (fun n => (["A", "B", "D"] : List String).contains n)
          ++ sortNames ((["A", "B", "D"] : List String).filter
            (fun n => !(["B", "A", "C"] : List String).contains n))
    ∧ (reconcileOrder ["A", "B", "D"] (some (some ["B", "A", "C"]))).2 = none :=
  ⟨(c6_amended ["A", "B", "D"] ["B", "A", "C"] (by decide) (by decide)).1,
   (c6_amended ["A", "B", "D"] ["B", "A", "C"] (by decide) (by decide)).2.1⟩

/-! ## Claim C8 -/

theorem configStep_lookup_other (pse env : List (String × String))
    (cfg : List (String × CVal)) (q : String × String) (k : String) (hq : q.1 ≠ k) :
    lookupCVal (configStep pse env cfg q) k = lookupCVal cfg k := by
  unfold configStep
  cases hps : lookupStr pse q.1 with
  | some raw => exact lookupAssoc_setAssoc_other cfg q.1 k _ (Ne.symm hq)
  | none =>
    cases hge : lookupStr env q.1 with
    | some raw => exact lookupAssoc_setAssoc_other cfg q.1 k _ (Ne.symm hq)
    | none => rfl

theorem configStep_lookup_self (pse env : List (String × String))
    (cfg : List (String × CVal)) (k ty : String) :
    lookupCVal (configStep pse env cfg (k, ty))
        k
      = match effectiveConfigSpec pse env k ty with
        | some v => some v
        | none => lookupCVal cfg k := by
  unfold configStep effectiveConfigSpec
  cases hps : lookupStr pse k with
  | some raw => exact lookupAssoc_setAssoc_self cfg k _
  | none =>
    cases hge : lookupStr env k with
    | some raw => exact lookupAssoc_setAssoc_self cfg k _
    | none => rfl

theorem configStep_has_none (pse env : List (String × String))
    (cfg : List (String × CVal)) (q : String × String) (k : String)
    (hps : lookupStr pse k = none) (hge : lookupStr env k = none)
    (h : hasAssoc cfg k = false) :
    hasAssoc (configStep pse env cfg q) k = false := by
  by_cases hq : q.1 = k
  · unfold configStep
    rw [show lookupStr pse q.1 = none from hq ▸ hps]
    rw [show lookupStr env q.1 = none from hq ▸ hge]
    exact h
  · unfold configStep
    cases lookupStr pse q.1 with
    | some raw =>
      show hasAssoc (setAssoc cfg q.1 (coerceConfigValue q.2 raw)) k = false
      rw [hasAssoc_setAssoc_other cfg q.1 k _ (Ne.symm hq)]
      exact h
    | none =>
      cases lookupStr env q.1 with
      | some raw =>
        show hasAssoc (setAssoc cfg q.1 (coerceConfigValue q.2 raw)) k = false
        rw [hasAssoc_setAssoc_other cfg q.1 k _ (Ne.symm hq)]
        exact h
      | none => exact h

theorem config_fold_notin (pse env : List (String × String)) :
    ∀ (schema : List (String × String)) (cfg : List (String × CVal)) (k : String),
    (∀ p ∈ schema, p.1 ≠ k) →
    lookupCVal (schema.foldl (configStep pse env) cfg) k = lookupCVal cfg k := by
  intro schema
  induction schema with
  | nil => intro cfg k _; rfl
  | cons q rest ih =>
    intro cfg k h
    rw [List.foldl_cons]
    rw [ih (configStep pse env cfg q) k (fun p hp => h p (List.mem_cons_of_mem q hp))]
    exact configStep_lookup_other pse env cfg q k (h q (List.mem_cons_self q rest))

theorem config_fold_has_none (pse env : List (String × String)) :
    ∀ (schema : List (String × String)) (cfg : List (String × CVal)) (k : String),
    lookupStr pse k = none → lookupStr env k = none → hasAssoc cfg k = false →
    hasAssoc (schema.foldl (configStep pse env) cfg) k = false := by
  intro schema
  induction schema with
  | nil => intro cfg k _ _ h; exact h
  | cons q rest ih =>
    intro cfg k hps hge h
    rw [List.foldl_cons]
    exact ih (configStep pse env cfg q) k hps hge (configStep_has_none pse env cfg q k hps hge h)

theorem config_fold_lookup (pse env : List (String × String)) :
    ∀ (schema : List (String × String)) (cfg : List (String × CVal)) (k ty : String),
    (schema.map Prod.fst).Nodup →
    schema.find? (fun p => p.1 == k) = some (k, ty) →
    lookupCVal (schema.foldl (configStep pse env) cfg) k
      = match effectiveConfigSpec pse env k ty with
        | some v => some v
        | none => lookupCVal cfg k := by
  intro schema
  induction schema with
  | nil => intro cfg k ty _ hf; exact absurd hf (by simp)
  | cons q rest ih =>
    intro cfg k ty hnd hf
    rw [List.map_cons, List.nodup_cons] at hnd
    rw [List.foldl_cons]
    by_cases hq : (q.1 == k) = true
    · rw [show ((q :: rest).find? (fun p => p.1 == k)) = some q from
        List.find?_cons_of_pos rest hq] at hf
      have hqk : q = (k, ty) := Option.some.inj hf
      have hk1 : q.1 = k := by rw [hqk]
      have hrest : ∀ p ∈ rest, p.1 ≠ k := by
        intro p hp he
        apply hnd.1
        rw [hk1, ← he]
        exact List.mem_map_of_mem Prod.fst hp
      rw [hqk]
      rw [config_fold_notin pse env rest (configStep pse env cfg (k, ty)) k hrest]
      exact configStep_lookup_self pse env cfg k ty
    · rw [show ((q :: rest).find? (fun p => p.1 == k)) = rest.find? (fun p => p.1 == k) from
        List.find?_cons_of_neg rest hq] at hf
      rw [ih (configStep pse env cfg q) k ty hnd.2 hf]
      have hq2 : q.1 ≠ k := fun he => hq (by simp [he])
      rw [configStep_lookup_other pse env cfg q k hq2]

theorem lookupCVal_setCVal_self (cfg : List (String × CVal)) (k : String) (v : CVal) :
    lookupCVal (setCVal cfg k v) k = some v :=
  lookupAssoc_setAssoc_self cfg k v

theorem lookupCVal_setCVal_other (cfg : List (String × CVal)) (k k2 : String) (v : CVal)
    (h : k2 ≠ k) : lookupCVal (setCVal cfg k v) k2 = lookupCVal cfg k2 :=
  lookupAssoc_setAssoc_other cfg k k2 v h

/-- Claim C8: the effective value of a schema-declared key is the first
    defined of the plugin env and the process env, coerced by the declared
    type (a failed integer parse giving undefined, boolean true exactly on
    the case-insensitive string true), and DebugMode always resolves to a
    boolean, false when neither source defines it. -/
theorem c8_config (env : List (String × String)) (m : ManifestCfg)
    (schema : List (String × String)) (k ty : String)
    (hs : m.configSchema = some schema)
    (hnd : (schema.map Prod.fst).Nodup)
    (hf : schema.find? (fun p => p.1 == k) = some (k, ty))
    (hdm : k ≠ "DebugMode") :
    lookupCVal (getPluginConfig env m) k
        = effectiveConfigSpec m.pluginSpecificEnvConfig env k ty
    ∧ lookupCVal (getPluginConfig env m) "DebugMode"
        = some (CVal.vBool (debugModeSpec m.pluginSpecificEnvConfig env)) := by
  have hbase : lookupCVal
      (schema.foldl (configStep m.pluginSpecificEnvConfig env) []) k
      = effectiveConfigSpec m.pluginSpecificEnvConfig env k ty := by
    rw [config_fold_lookup m.pluginSpecificEnvConfig env schema [] k ty hnd hf]
    cases effectiveConfigSpec m.pluginSpecificEnvConfig env k ty <;> rfl
  constructor
  · simp only [getPluginConfig, hs]
    cases hd1 : lookupStr m.pluginSpecificEnvConfig "DebugMode" with
    | some raw =>
      rw [lookupCVal_setCVal_other _ "DebugMode" k _ hdm]
      exact hbase
    | none =>
      cases hd2 : lookupStr env "DebugMode" with
      | some raw =>
        rw [lookupCVal_setCVal_other _ "DebugMode" k _ hdm]
        exact hbase
      | none =>
        by_cases hb : hasAssoc
            (schema.foldl (configStep m.pluginSpecificEnvConfig env) []) "DebugMode"
        · rw [if_pos hb]
          exact hbase
        · rw [if_neg hb]
          rw [lookupCVal_setCVal_other _ "DebugMode" k _ hdm]
          exact hbase
  · simp only [getPluginConfig, hs]
    cases hd1 : lookupStr m.pluginSpecificEnvConfig "DebugMode" with
    | some raw =>
      rw [lookupCVal_setCVal_self]
      unfold debugModeSpec
      rw [hd1]
    | none =>
      cases hd2 : lookupStr env "DebugMode" with
      | some raw =>
        rw [lookupCVal_setCVal_self]
        unfold debugModeSpec
        rw [hd1, hd2]
      | none =>
        have hbf : hasAssoc
            (schema.foldl (configStep m.pluginSpecificEnvConfig env) []) "DebugMode" = false :=
          config_fold_has_none m.pluginSpecificEnvConfig env schema [] "DebugMode" hd1 hd2 rfl
        rw [if_neg (by rw [hbf]; exact Bool.false_ne_true)]
        rw [lookupCVal_setCVal_self]
        unfold debugModeSpec
        rw [hd1, hd2]

/-- Witness for c8_config: an integer key whose raw value parses, an integer
    key whose raw value fails to parse (yielding undefined), a boolean key
    satisfied case-insensitively from the process env, and the DebugMode
    default. -/
theorem c8_config_witness :
    lookupCVal (getPluginConfig [("Flag", "TRUE")]
        { name := "P",
          configSchema := some [("Port", "integer"), ("Flag", "boolean"), ("Bad", "integer")],
          pluginSpecificEnvConfig := [("Port", " 80x"), ("Bad", "abc")] }) "Port"
      = some (CVal.vInt 80)
    ∧ lookupCVal (getPluginConfig [("Flag", "TRUE")]
        { name := "P",
          configSchema := some [("Port", "integer"), ("Flag", "boolean"), ("Bad", "integer")],
          pluginSpecificEnvConfig := [("Port", " 80x"), ("Bad", "abc")] }) "Bad"
      = some CVal.vUndef
    ∧ lookupCVal (getPluginConfig [("Flag", "TRUE")]
        { name := "P",
          configSchema := some [("Port", "integer"), ("Flag", "boolean"), ("Bad", "integer")],
          pluginSpecificEnvConfig := [("Port", " 80x"), ("Bad", "abc")] }) "Flag"
      = some (CVal.vBool true)
    ∧ lookupCVal (getPluginConfig [("Flag", "TRUE")]
        { name := "P",
          configSchema := some [("Port", "integer"), ("Flag", "boolean"), ("Bad", "integer")],
          pluginSpecificEnvConfig := [("Port", " 80x"), ("Bad", "abc")] }) "DebugMode"
      = some (CVal.vBool false) :=
  ⟨((c8_config [("Flag", "TRUE")] _ _ "Port" "integer" rfl (by decide) (by decide)
      (by decide)).1).trans (by decide),
   ((c8_config [("Flag", "TRUE")] _ _ "Bad" "integer" rfl (by decide) (by decide)
      (by decide)).1).trans (by decide),
   ((c8_config [("Flag", "TRUE")] _ _ "Flag" "boolean" rfl (by decide) (by decide)
      (by decide)).1).trans (by decide),
   ((c8_config [("Flag", "TRUE")] _ _ "Port" "integer" rfl (by decide) (by decide)
      (by decide)).2).trans (by decide)⟩

/-! ## Claim C9 -/

theorem not_mem_keys_of_not_has (m : PluginMap) (k : String) (hk : mapHas m k = false) :
    k ∉ mapKeys m := by
  intro hmem
  rcases List.mem_map.mp hmem with ⟨p, hp, hpk⟩
  have hall := List.any_eq_false.mp hk p hp
  apply hall
  simp [hpk]

theorem nodup_keys_append (m : PluginMap) (k : String) (v : PManifest)
    (h : (mapKeys m).Nodup) (hk : mapHas m k = false) :
    (mapKeys (m ++ [(k, v)])).Nodup := by
  show ((m ++ [(k, v)]).map Prod.fst).Nodup
  rw [List.map_append]
  rw [List.nodup_append]
  refine ⟨h, List.nodup_singleton k, ?_⟩
  intro a ha hb
  have hak : a = k := by simpa using hb
  exact not_mem_keys_of_not_has m k hk (hak ▸ ha)

theorem nodup_keys_filter (m : PluginMap) (p : String × PManifest → Bool)
    (h : (mapKeys m).Nodup) : (mapKeys (m.filter p)).Nodup :=
  List.Nodup.sublist (List.Sublist.map Prod.fst (List.filter_sublist m)) h

/-- The manifest-map effect of one directory entry of the scan. -/
theorem scanStep_plugins_eq (acc : ScanResult) (entry : DiskEntry) :
    (scanStep acc entry).plugins
      = match entry.manifest with
        | none => acc.plugins
        | some mf =>
          if manifestInvalid mf then acc.plugins
          else if mapHas acc.plugins mf.name then acc.plugins
          else mapSet acc.plugins mf.name mf := by
  unfold scanStep
  cases entry.manifest with
  | none => rfl
  | some mf =>
    dsimp only
    by_cases h1 : manifestInvalid mf
    · rw [if_pos h1, if_pos h1]
    · rw [if_neg h1, if_neg h1]
      by_cases h2 : mapHas acc.plugins mf.name
      · rw [if_pos h2, if_pos h2]
      · rw [if_neg h2, if_neg h2]
        by_cases h3 : ((isPreprocessorType mf.pluginType || isServiceType mf.pluginType)
            && entry.directScript && entry.moduleLoads)
        · rw [if_pos h3]
          by_cases h4 : (isPreprocessorType mf.pluginType && entry.hasProcessMessages)
          · rw [if_pos h4]
            by_cases h5 : isServiceType mf.pluginType
            · rw [if_pos h5]
            · rw [if_neg h5]
          · rw [if_neg h4]
            by_cases h5 : isServiceType mf.pluginType
            · rw [if_pos h5]
            · rw [if_neg h5]
        · rw [if_neg h3]

theorem scanStep_plugins_cases (acc : ScanResult) (entry : DiskEntry) :
    (scanStep acc entry).plugins = acc.plugins
    ∨ ∃ k v, mapHas acc.plugins k = false
        ∧ (scanStep acc entry).plugins = acc.plugins ++ [(k, v)] := by
  rw [scanStep_plugins_eq]
  cases entry.manifest with
  | none => exact Or.inl rfl
  | some mf =>
    dsimp only
    by_cases h1 : manifestInvalid mf
    · rw [if_pos h1]
      exact Or.inl rfl
    · rw [if_neg h1]
      by_cases h2 : mapHas acc.plugins mf.name
      · rw [if_pos h2]
        exact Or.inl rfl
      · rw [if_neg h2]
        have h2f : mapHas acc.plugins mf.name = false := Bool.eq_false_iff.mpr h2
        exact Or.inr ⟨mf.name, mf, h2f, setAssoc_of_not_has acc.plugins mf.name mf h2f⟩

theorem registerStep_cases (serverId : String) (ps : PluginMap) (t : PManifest) :
    registerStep serverId ps t = ps
    ∨ ∃ k v, mapHas ps k = false ∧ registerStep serverId ps t = ps ++ [(k, v)] := by
  unfold registerStep
  by_cases h1 : manifestInvalid t
  · rw [if_pos h1]
    exact Or.inl rfl
  · rw [if_neg h1]
    by_cases h2 : mapHas ps t.name
    · rw [if_pos h2]
      exact Or.inl rfl
    · rw [if_neg h2]
      have h2f : mapHas ps t.name = false := Bool.eq_false_iff.mpr h2
      exact Or.inr ⟨t.name, _, h2f, setAssoc_of_not_has ps t.name _ h2f⟩

theorem scan_fold_preserve (disk : List DiskEntry) :
    ∀ acc : ScanResult, (mapKeys acc.plugins).Nodup →
    (mapKeys ((disk.foldl scanStep acc).plugins)).Nodup
    ∧ ∀ n mf, mapGet acc.plugins n = some mf →
        mapGet ((disk.foldl scanStep acc).plugins) n = some mf := by
  induction disk with
  | nil => exact fun acc h => ⟨h, fun n mf hm => hm⟩
  | cons e rest ih =>
    intro acc h
    rw [List.foldl_cons]
    rcases scanStep_plugins_cases acc e with hc | ⟨k, v, hk, hc⟩
    · have h2 := ih (scanStep acc e) (by rw [hc]; exact h)
      exact ⟨h2.1, fun n mf hm => h2.2 n mf (by rw [hc]; exact hm)⟩
    · have h2 := ih (scanStep acc e) (by rw [hc]; exact nodup_keys_append acc.plugins k v h hk)
      exact ⟨h2.1, fun n mf hm =>
        h2.2 n mf (by rw [hc]; exact lookupAssoc_append_left acc.plugins [(k, v)] n mf hm)⟩

theorem reg_fold_preserve (serverId : String) (tools : List PManifest) :
    ∀ ps : PluginMap, (mapKeys ps).Nodup →
    (mapKeys (tools.foldl (registerStep serverId) ps)).Nodup
    ∧ ∀ n mf, mapGet ps n = some mf →
        mapGet (tools.foldl (registerStep serverId) ps) n = some mf := by
  induction tools with
  | nil => exact fun ps h => ⟨h, fun n mf hm => hm⟩
  | cons t rest ih =>
    intro ps h
    rw [List.foldl_cons]
    rcases registerStep_cases serverId ps t with hc | ⟨k, v, hk, hc⟩
    · have h2 := ih (registerStep serverId ps t) (by rw [hc]; exact h)
      exact ⟨h2.1, fun n mf hm => h2.2 n mf (by rw [hc]; exact hm)⟩
    · have h2 := ih (registerStep serverId ps t)
        (by rw [hc]; exact nodup_keys_append ps k v h hk)
      exact ⟨h2.1, fun n mf hm =>
        h2.2 n mf (by rw [hc]; exact lookupAssoc_append_left ps [(k, v)] n mf hm)⟩

/-- Claim C9: the manifest map never holds two entries with the same name,
    and a newly discovered local plugin or a newly registered distributed
    tool whose name collides with an existing registration is skipped: every
    binding present before the operation is still present, unchanged,
    afterwards (for the local rescan, present means surviving the reload
    filter that seeds the scan). -/
theorem c9_uniqueness (prior : PluginMap) (disk : List DiskEntry) (serverId : String)
    (tools : List PManifest) (n : String) (mf : PManifest)
    (h : (mapKeys prior).Nodup) :
    (mapKeys (loadPluginsMap prior disk)).Nodup
    ∧ (mapKeys (registerDistributedTools prior serverId tools)).Nodup
    ∧ (mapGet (prior.filter (fun p => !p.2.isDistributed)) n = some mf →
        mapGet (loadPluginsMap prior disk) n = some mf)
    ∧ (mapGet prior n = some mf →
        mapGet (registerDistributedTools prior serverId tools) n = some mf) := by
  have hscan := scan_fold_preserve disk
    { plugins := prior.filter (fun p => !p.2.isDistributed),
      discoveredPreprocessors := [], serviceModules := [] }
    (nodup_keys_filter prior _ h)
  have hreg := reg_fold_preserve serverId tools prior h
  exact ⟨hscan.1, hreg.1, fun hm => hscan.2 n mf hm, fun hm => hreg.2 n mf hm⟩

/-- Witness for c9_uniqueness: a prior map with local plugin L; the rescan
    sees an edited manifest for L (skipped, L unchanged), and a remote batch
    offers a colliding L (skipped) plus a fresh W (registered). -/
theorem c9_uniqueness_witness :
    (mapKeys (loadPluginsMap [("L", exLocalOld)] [exDiskL])).Nodup
    ∧ (mapKeys (registerDistributedTools [("L", exLocalOld)] "S1"
        [exToolDup, exToolNew])).Nodup
    ∧ mapGet (loadPluginsMap [("L", exLocalOld)] [exDiskL]) "L" = some exLocalOld
    ∧ mapGet (registerDistributedTools [("L", exLocalOld)] "S1" [exToolDup, exToolNew]) "L"
        = some exLocalOld :=
  ⟨(c9_uniqueness [("L", exLocalOld)] [exDiskL] "S1" [exToolDup, exToolNew] "L" exLocalOld
      (by decide)).1,
   (c9_uniqueness [("L", exLocalOld)] [exDiskL] "S1" [exToolDup, exToolNew] "L" exLocalOld
      (by decide)).2.1,
   (c9_uniqueness [("L", exLocalOld)] [exDiskL] "S1" [exToolDup, exToolNew] "L" exLocalOld
      (by decide)).2.2.1 (by decide),
   (c9_uniqueness [("L", exLocalOld)] [exDiskL] "S1" [exToolDup, exToolNew] "L" exLocalOld
      (by decide)).2.2.2 (by decide)⟩

/-! ## Claim C10 -/

theorem reconSavedPass_mem (saved : List String) :
    ∀ (av D : List String), (∀ x ∈ av, x ∈ D) →
    (∀ x ∈ (reconSavedPass av saved).1, x ∈ D)
    ∧ (∀ x ∈ (reconSavedPass av saved).2, x ∈ D) := by
  induction saved with
  | nil =>
    intro av D h
    constructor
    · intro x hx
      simp [reconSavedPass] at hx
    · intro x hx
      exact h x hx
  | cons name rest ih =>
    intro av D h
    simp only [reconSavedPass]
    by_cases hc : av.contains name
    · rw [if_pos hc]
      have hsub : ∀ y ∈ av.erase name, y ∈ D := fun y hy => h y (List.mem_of_mem_erase hy)
      constructor
      · intro x hx
        rcases List.mem_cons.mp hx with rfl | hx2
        · exact h x ((contains_true_iff av x).mp hc)
        · exact (ih (av.erase name) D hsub).1 x hx2
      · intro x hx
        exact (ih (av.erase name) D hsub).2 x hx
    · rw [if_neg hc]
      exact ih av D h

theorem reconcileOrder_mem (discovered : List String) (orderFile : OrderFile) :
    ∀ x ∈ (reconcileOrder discovered orderFile).1, x ∈ discovered := by
  intro x hx
  have hsort : ∀ (l : List String), x ∈ sortNames l → x ∈ l := by
    intro l hl
    exact (List.perm_insertionSort (fun a b => a ≤ b) l).mem_iff.mp hl
  cases orderFile with
  | none =>
    rcases List.mem_append.mp hx with hx1 | hx1
    · simp at hx1
    · exact hsort discovered hx1
  | some saved? =>
    cases saved? with
    | none =>
      rcases List.mem_append.mp hx with hx1 | hx1
      · simp at hx1
      · exact hsort discovered hx1
    | some saved =>
      have hpass := reconSavedPass_mem saved discovered discovered (fun y hy => hy)
      rcases List.mem_append.mp hx with hx1 | hx1
      · exact hpass.1 x hx1
      · exact hpass.2 x (hsort _ hx1)

/-- Claim C10: loadPlugins unconditionally clears the placeholder table (it
    is empty after every reload, whatever was in it, including values pushed
    by still-connected remote sessions), and the rebuilt preprocessor and
    service-module maps hold only names discovered by this very scan. -/
theorem c10_reload_clears_placeholder_table (st : PMState) (disk : List DiskEntry)
    (orderFile : OrderFile) :
    (loadPluginsState st disk orderFile).1.staticPlaceholderValues = []
    ∧ ((loadPluginsState st disk orderFile).1.messagePreprocessors.all
        (fun n => (scanPlugins st.plugins disk).discoveredPreprocessors.contains n)) = true
    ∧ (loadPluginsState st disk orderFile).1.serviceModules
        = (scanPlugins st.plugins disk).serviceModules := by
  refine ⟨rfl, ?_, rfl⟩
  rw [List.all_eq_true]
  intro n hn
  exact (contains_true_iff _ n).mpr
    (reconcileOrder_mem (scanPlugins st.plugins disk).discoveredPreprocessors orderFile n hn)

/-! ## Claim C5 -/

theorem asyncPre_stdout (st : ExecState) (data : String)
    (h1 : st.processExited = false)
    (h2 : st.settles.length = (if st.initialResponseSent then 1 else 0)) :
    (onStdoutData true st data).processExited = false
    ∧ (onStdoutData true st data).settles.length
        = (if (onStdoutData true st data).initialResponseSent then 1 else 0) := by
  cases hs : st.initialResponseSent with
  | true =>
    have hst : onStdoutData true st data = st := by
      unfold onStdoutData
      rw [if_pos (by simp [h1, hs])]
    rw [hst]
    exact ⟨h1, h2⟩
  | false =>
    unfold onStdoutData
    rw [if_neg (by simp [h1, hs])]
    dsimp only
    rw [if_pos rfl]
    cases hfc : firstJsonCandidate (st.outputBuffer ++ data) with
    | none => exact ⟨h1, h2⟩
    | some cand =>
      dsimp only
      cases hp : jsonParse cand with
      | none => exact ⟨h1, h2⟩
      | some parsed =>
        dsimp only
        cases hsf : statusFinal parsed with
        | false =>
          rw [if_neg (by simp)]
          exact ⟨h1, h2⟩
        | true =>
          rw [if_pos (by rw [hs]; rfl)]
          refine ⟨h1, ?_⟩
          dsimp only
          rw [List.length_append, h2, hs]
          rfl

theorem async_exit_len (nm : String) (st : ExecState) (code : Int) (sig : Option String)
    (h2 : st.settles.length = (if st.initialResponseSent then 1 else 0)) :
    (onProcExit true nm st code sig).settles.length ≤ 1
    ∧ (onProcExit true nm st code sig).processExited = true := by
  unfold onProcExit
  dsimp only
  cases hs : st.initialResponseSent with
  | true =>
    rw [if_pos (by decide)]
    exact ⟨by rw [h2, hs]; decide, rfl⟩
  | false =>
    rw [if_neg (by decide)]
    by_cases hk : (sig == some "SIGKILL") = true
    · rw [if_pos hk]
      rw [if_neg (by decide)]
      refine ⟨?_, rfl⟩
      dsimp only
      rw [List.length_append, h2, hs]
      simp
    · rw [if_neg hk]
      cases hp : jsonParse (jsTrim st.outputBuffer) with
      | some parsed =>
        dsimp only
        cases hsf : statusFinal parsed with
        | true =>
          rw [if_pos rfl]
          rw [if_neg (by decide)]
          refine ⟨?_, rfl⟩
          dsimp only
          rw [List.length_append, h2, hs]
          simp
        | false =>
          rw [if_neg (by decide)]
          unfold exitNoJsonSettle
          dsimp only
          rw [if_neg (by decide)]
          by_cases hc : code ≠ 0
          · rw [if_pos hc]
            refine ⟨?_, rfl⟩
            dsimp only
            rw [List.length_append, h2, hs]
            simp
          · rw [if_neg hc]
            refine ⟨?_, rfl⟩
            dsimp only
            rw [List.length_append, h2, hs]
            simp
      | none =>
        dsimp only
        unfold exitNoJsonSettle
        dsimp only
        rw [if_neg (by decide)]
        by_cases hc : code ≠ 0
        · rw [if_pos hc]
          refine ⟨?_, rfl⟩
          dsimp only
          rw [List.length_append, h2, hs]
          simp
        · rw [if_neg hc]
          refine ⟨?_, rfl⟩
          dsimp only
          rw [List.length_append, h2, hs]
          simp

theorem async_postexit (nm : String) (evs : List PEvent) :
    ∀ st : ExecState, exitCount evs = 0 → st.processExited = true →
    (evs.foldl (execStep true nm) st).settles = st.settles
    ∧ (evs.foldl (execStep true nm) st).processExited = true := by
  induction evs with
  | nil => exact fun st _ hpe => ⟨rfl, hpe⟩
  | cons e rest ih =>
    intro st hcount hpe
    rw [List.foldl_cons]
    cases e with
    | stdoutData s =>
      have hstep : execStep true nm st (PEvent.stdoutData s) = st := by
        show onStdoutData true st s = st
        unfold onStdoutData
        rw [hpe]
        rfl
      rw [hstep]
      exact ih st (by simpa [exitCount, List.countP_cons, isExitEvent] using hcount) hpe
    | stderrData s =>
      have h3 := ih { st with errorOutput := st.errorOutput ++ s }
        (by simpa [exitCount, List.countP_cons, isExitEvent] using hcount) hpe
      exact h3
    | procExit code sig =>
      exfalso
      have : exitCount (PEvent.procExit code sig :: rest) = exitCount rest + 1 := by
        simp [exitCount, List.countP_cons, isExitEvent]
      omega

theorem async_run_le_one (nm : String) (evs : List PEvent) :
    ∀ st : ExecState, exitCount evs ≤ 1 →
    st.processExited = false →
    st.settles.length = (if st.initialResponseSent then 1 else 0) →
    (evs.foldl (execStep true nm) st).settles.length ≤ 1 := by
  induction evs with
  | nil =>
    intro st _ _ hlen
    rw [List.foldl_nil, hlen]
    cases st.initialResponseSent <;> simp
  | cons e rest ih =>
    intro st h hpe hlen
    rw [List.foldl_cons]
    cases e with
    | stdoutData s =>
      have hstep := asyncPre_stdout st s hpe hlen
      exact ih _ (by simpa [exitCount, List.countP_cons, isExitEvent] using h) hstep.1 hstep.2
    | stderrData s =>
      exact ih { st with errorOutput := st.errorOutput ++ s }
        (by simpa [exitCount, List.countP_cons, isExitEvent] using h) hpe hlen
    | procExit code sig =>
      have hstep := async_exit_len nm st code sig hlen
      have hrest0 : exitCount rest = 0 := by
        have hc : exitCount (PEvent.procExit code sig :: rest) = exitCount rest + 1 := by
          simp [exitCount, List.countP_cons, isExitEvent]
        omega
      have hpost := async_postexit nm rest _ hrest0 hstep.2
      show (List.foldl (execStep true nm) (onProcExit true nm st code sig) rest).settles.length ≤ 1
      rw [hpost.1]
      exact hstep.1

theorem execStep_settles_mono (a : Bool) (nm : String) (st : ExecState) (e : PEvent) :
    ∃ d, (execStep a nm st e).settles = st.settles ++ d := by
  cases e with
  | stderrData s => exact ⟨[], by simp [execStep]⟩
  | stdoutData s =>
    show ∃ d, (onStdoutData a st s).settles = st.settles ++ d
    unfold onStdoutData
    by_cases hguard : st.processExited || (a && st.initialResponseSent)
    · rw [if_pos hguard]
      exact ⟨[], by simp⟩
    · rw [if_neg hguard]
      dsimp only
      cases a with
      | false =>
        rw [if_neg (by decide)]
        exact ⟨[], by simp⟩
      | true =>
        rw [if_pos rfl]
        cases hfc : firstJsonCandidate (st.outputBuffer ++ s) with
        | none => exact ⟨[], by simp⟩
        | some cand =>
          dsimp only
          cases hp : jsonParse cand with
          | none => exact ⟨[], by simp⟩
          | some parsed =>
            dsimp only
            by_cases hsf : (statusFinal parsed && !st.initialResponseSent) = true
            · rw [if_pos hsf]
              exact ⟨[Settle.resolvedJson parsed], rfl⟩
            · rw [if_neg hsf]
              exact ⟨[], by simp⟩
  | procExit code sig =>
    show ∃ d, (onProcExit a nm st code sig).settles = st.settles ++ d
    unfold onProcExit
    by_cases hg1 : (a && st.initialResponseSent) = true
    · rw [if_pos hg1]
      exact ⟨[], by simp⟩
    · rw [if_neg hg1]
      by_cases hk : (sig == some "SIGKILL") = true
      · rw [if_pos hk]
        by_cases hs : st.initialResponseSent
        · rw [if_pos hs]
          exact ⟨[], by simp⟩
        · rw [if_neg hs]
          exact ⟨[Settle.rejectedMsg (timedOutOrKilledMsg nm)], rfl⟩
      · rw [if_neg hk]
        cases jsonParse (jsTrim st.outputBuffer) with
        | some parsed =>
          cases hsf : statusFinal parsed with
          | true =>
            simp only [hsf, if_true]
            by_cases hs : st.initialResponseSent
            · rw [if_pos hs]
              exact ⟨[], by simp⟩
            · rw [if_neg hs]
              exact ⟨[Settle.resolvedJson
                (attachStderrField parsed st.errorOutput)], rfl⟩
          | false =>
            simp only [hsf, Bool.false_eq_true, if_false]
            unfold exitNoJsonSettle
            by_cases hs : st.initialResponseSent
            · rw [if_pos hs]
              exact ⟨[], by simp⟩
            · rw [if_neg hs]
              by_cases hc : code ≠ 0
              · rw [if_pos hc]
                exact ⟨[Settle.rejectedMsg (exitNonZeroMsg nm code st.outputBuffer st.errorOutput)], rfl⟩
              · rw [if_neg hc]
                exact ⟨[Settle.rejectedMsg (exitZeroNoJsonMsg nm st.outputBuffer)], rfl⟩
        | none =>
          unfold exitNoJsonSettle
          by_cases hs : st.initialResponseSent
          · rw [if_pos hs]
            exact ⟨[], by simp⟩
          · rw [if_neg hs]
            by_cases hc : code ≠ 0
            · rw [if_pos hc]
              exact ⟨[Settle.rejectedMsg (exitNonZeroMsg nm code st.outputBuffer st.errorOutput)], rfl⟩
            · rw [if_neg hc]
              exact ⟨[Settle.rejectedMsg (exitZeroNoJsonMsg nm st.outputBuffer)], rfl⟩

theorem foldl_settles_mono (a : Bool) (nm : String) (evs : List PEvent) :
    ∀ st : ExecState, ∃ d, (evs.foldl (execStep a nm) st).settles = st.settles ++ d := by
  induction evs with
  | nil => exact fun st => ⟨[], by simp⟩
  | cons e rest ih =>
    intro st
    rw [List.foldl_cons]
    rcases execStep_settles_mono a nm st e with ⟨d1, hd1⟩
    rcases ih (execStep a nm st e) with ⟨d2, hd2⟩
    exact ⟨d1 ++ d2, by rw [hd2, hd1, List.append_assoc]⟩

/-- Claim C5 is false on the code as stated: a first stdout chunk that is a
    complete top-level JSON object without a status field does not resolve
    the call (the handler resolves only on a status object), so resolution
    is not "at the first complete top-level JSON object observed". -/
theorem c5_counterexample :
    (execRun true "R" [PEvent.stdoutData "\x7b\"a\":1\x7d\n"]).settles = []
    ∧ jsonParse "\x7b\"a\":1\x7d" = some (Json.obj [("a", Json.num 1)]) :=
  ⟨rfl, rfl⟩

/-- Claim C5 amended: for an asynchronous plugin the executor settles the
    caller at most once over any event trace (with the single process exit
    of a real run), resolving at the first stdout chunk whose brace-scanned
    candidate parses as a status object; once a settle has happened, later
    stdout data, later JSON objects and the process exit leave the settle
    list unchanged. -/
theorem c5_amended (nm : String) (pre post : List PEvent) (s : Settle)
    (h : exitCount (pre ++ post) ≤ 1) :
    (execRun true nm (pre ++ post)).settles.length ≤ 1
    ∧ ((execRun true nm pre).settles = [s] →
        (execRun true nm (pre ++ post)).settles = [s]) := by
  have hlen : (execRun true nm (pre ++ post)).settles.length ≤ 1 :=
    async_run_le_one nm (pre ++ post) execInit h rfl rfl
  refine ⟨hlen, ?_⟩
  intro hpre
  have hsplit : execRun true nm (pre ++ post)
      = post.foldl (execStep true nm) (execRun true nm pre) := by
    unfold execRun
    rw [List.foldl_append]
  rcases foldl_settles_mono true nm post (execRun true nm pre) with ⟨d, hd⟩
  have hfull : (execRun true nm (pre ++ post)).settles = [s] ++ d := by
    rw [hsplit, hd, hpre]
  have hdnil : d = [] := by
    have hL : ([s] ++ d).length ≤ 1 := by
      rw [← hfull]
      exact hlen
    rw [List.length_append] at hL
    rw [show ([s] : List Settle).length = 1 from rfl] at hL
    have hd0 : d.length = 0 := by omega
    exact List.eq_nil_of_length_eq_zero hd0
  rw [hfull, hdnil]
  rfl

/-- Witness for c5_amended: the async plugin of spec scenario 3 emits its
    status acknowledgement, then more stdout, then exits; the caller is
    settled exactly once, with the acknowledgement. -/
theorem c5_amended_witness :
    exitCount (c5pre ++ c5post) ≤ 1
    ∧ (execRun true "R" c5pre).settles = [Settle.resolvedJson c5ackJson]
    ∧ (execRun true "R" (c5pre ++ c5post)).settles.length ≤ 1
    ∧ (execRun true "R" (c5pre ++ c5post)).settles = [Settle.resolvedJson c5ackJson] :=
  ⟨by decide, rfl,
   (c5_amended "R" c5pre c5post (Settle.resolvedJson c5ackJson) (by decide)).1,
   (c5_amended "R" c5pre c5post (Settle.resolvedJson c5ackJson) (by decide)).2 rfl⟩

/-! ## Claim C7 -/

theorem sync_stdout_step (st : ExecState) (s : String) (h : st.processExited = false) :
    onStdoutData false st s = { st with outputBuffer := st.outputBuffer ++ s } := by
  unfold onStdoutData
  rw [if_neg (by simp [h])]
  dsimp only
  rw [if_neg (by decide)]

theorem sync_accum (nm : String) (evs : List PEvent) :
    ∀ st : ExecState, evs.all (fun e => !isExitEvent e) = true → st.processExited = false →
    evs.foldl (execStep false nm) st
      = { st with outputBuffer := st.outputBuffer ++ concatStdout evs,
                  errorOutput := st.errorOutput ++ concatStderr evs } := by
  induction evs with
  | nil =>
    intro st _ _
    rw [List.foldl_nil]
    cases st
    simp [concatStdout, concatStderr]
  | cons e rest ih =>
    intro st hall hpe
    rw [List.all_cons, Bool.and_eq_true] at hall
    rw [List.foldl_cons]
    cases e with
    | stdoutData s =>
      rw [show execStep false nm st (PEvent.stdoutData s)
          = { st with outputBuffer := st.outputBuffer ++ s } from sync_stdout_step st s hpe]
      rw [ih { st with outputBuffer := st.outputBuffer ++ s } hall.2 hpe]
      simp only [concatStdout, concatStderr]
      rw [String.append_assoc]
    | stderrData s =>
      rw [show execStep false nm st (PEvent.stderrData s)
          = { st with errorOutput := st.errorOutput ++ s } from rfl]
      rw [ih { st with errorOutput := st.errorOutput ++ s } hall.2 hpe]
      simp only [concatStdout, concatStderr]
      rw [String.append_assoc]
    | procExit code sig =>
      exfalso
      simp [isExitEvent] at hall

/-- Claim C7 is false on the code in its stderr clause: a synchronous run
    with stdout "hello" (not JSON), stderr "oops-tail" and exit code 0 is
    rejected, but the rejection message carries the stdout excerpt and not
    the stderr tail. -/
theorem c7_counterexample :
    (execRun false "P" [PEvent.stdoutData "hello", PEvent.stderrData "oops-tail",
        PEvent.procExit 0 none]).settles
      = [Settle.rejectedMsg (exitZeroNoJsonMsg "P" "hello")]
    ∧ strContains (exitZeroNoJsonMsg "P" "hello") "oops-tail" = false
    ∧ strContains (exitZeroNoJsonMsg "P" "hello") "hello" = true :=
  ⟨rfl, rfl, rfl⟩

/-- Claim C7 amended: a synchronous call is settled at process exit from the
    full accumulated stdout; a status object always wins over the exit code
    (with the stderr tail attached as pluginStderr); otherwise the call is
    rejected, with a message carrying the stdout tail when the exit code is
    zero and both stdout and stderr tails when it is non-zero. -/
theorem c7_amended (nm : String) (evs : List PEvent) (code : Int)
    (h : evs.all (fun e => !isExitEvent e) = true) :
    (∀ p, jsonParse (jsTrim (concatStdout evs)) = some p → statusFinal p = true →
      (execRun false nm (evs ++ [PEvent.procExit code none])).settles
        = [Settle.resolvedJson (attachStderrField p (concatStderr evs))])
    ∧ (jsonStatusOk (jsTrim (concatStdout evs)) = false →
      (execRun false nm (evs ++ [PEvent.procExit code none])).settles
        = [Settle.rejectedMsg (if code ≠ 0 then
             exitNonZeroMsg nm code (concatStdout evs) (concatStderr evs)
           else exitZeroNoJsonMsg nm (concatStdout evs))]) := by
  have hrun : execRun false nm (evs ++ [PEvent.procExit code none])
      = onProcExit false nm
          { outputBuffer := concatStdout evs, errorOutput := concatStderr evs,
            processExited := false, initialResponseSent := false, settles := [] }
          code none := by
    unfold execRun
    rw [List.foldl_append]
    rw [sync_accum nm evs execInit h rfl]
    rfl
  rw [hrun]
  unfold onProcExit
  dsimp only
  rw [if_neg (by decide), if_neg (by decide)]
  constructor
  · intro p hp hsf
    rw [hp]
    dsimp only
    rw [if_pos hsf]
    rw [if_neg (by decide)]
    rfl
  · intro hnot
    unfold jsonStatusOk at hnot
    cases hp : jsonParse (jsTrim (concatStdout evs)) with
    | some p =>
      rw [hp] at hnot
      dsimp only at hnot
      dsimp only
      rw [if_neg (by simp [hnot])]
      unfold exitNoJsonSettle
      dsimp only
      rw [if_neg (by decide)]
      by_cases hc : code ≠ 0
      · rw [if_pos hc, if_pos hc]
        rfl
      · rw [if_neg hc, if_neg hc]
        rfl
    | none =>
      dsimp only
      unfold exitNoJsonSettle
      dsimp only
      rw [if_neg (by decide)]
      by_cases hc : code ≠ 0
      · rw [if_pos hc, if_pos hc]
        rfl
      · rw [if_neg hc, if_neg hc]
        rfl

/-- Witness for c7_amended: a non-zero exit whose stdout is a valid success
    object resolves as success, with the stderr tail attached. -/
theorem c7_amended_witness :
    (execRun false "P" ([PEvent.stdoutData "\x7b\"status\":\"success\"\x7d",
        PEvent.stderrData "warn"] ++ [PEvent.procExit 3 none])).settles
      = [Settle.resolvedJson (Json.obj
          [("status", Json.str "success"), ("pluginStderr", Json.str "warn")])] :=
  ((c7_amended "P" [PEvent.stdoutData "\x7b\"status\":\"success\"\x7d",
      PEvent.stderrData "warn"] 3 (by decide)).1
    (Json.obj [("status", Json.str "success")]) rfl rfl).trans rfl

/-! ## Claim C4 -/

/-- Claim C4 is false on the code in its retry-once clause: with a request
    origin present and a plugin whose error payload carries the
    FILE_NOT_FOUND_LOCALLY sentinel with fileUrl and failedParameter, a
    retry whose outcome is again the sentinel (now for image_url_2) is
    retried again — the dispatcher re-enters processToolCall recursively, so
    the plugin is invoked three times before succeeding, not at most twice. -/
theorem c4_counterexample :
    c4run.1.length = 3
    ∧ c4run.2 = ToolOutcome.succeeded c4Success
    ∧ sentinelHit (c4exec c4args) (some "10.0.0.7") = true
    ∧ (c4exec c4args).failedParameter = some "image_url_1" :=
  ⟨rfl, rfl, rfl, rfl⟩

/-- Claim C4 amended: on a status-error output carrying the
    FILE_NOT_FOUND_LOCALLY sentinel with a truthy fileUrl and a request
    origin present, the dispatcher fetches the bytes, removes the named
    truthy failed parameter, adds the image_base64_N parameter holding the
    data URI, and re-invokes by re-entering the dispatcher (so a retry that
    fails with the sentinel again is retried again, without bound); a fetch
    failure surfaces a structured error preserving both the original plugin
    error and the fetch error without any retry, and a non-sentinel error is
    surfaced without any retry. -/
theorem c4_amended (exec : ToolArgs → StdioOutput)
    (fetchUri : String → Except String String) (fuel : Nat) (args : ToolArgs)
    (requestIp : Option String)
    (hstat : ((exec args).status == "success") = false) :
    (∀ dataUri, sentinelHit (exec args) requestIp = true →
        fetchUri ((exec args).fileUrl.getD "") = Except.ok dataUri →
        processLocalToolCall exec fetchUri (fuel + 1) args requestIp
          = (args :: (processLocalToolCall exec fetchUri fuel
              (retryArgs args (exec args).failedParameter dataUri) requestIp).1,
             (processLocalToolCall exec fetchUri fuel
              (retryArgs args (exec args).failedParameter dataUri) requestIp).2)
        ∧ ∀ fp, (exec args).failedParameter = some fp → fp ≠ "" → argTruthy args fp = true →
            argGet (retryArgs args (exec args).failedParameter dataUri) fp
              = (if ("image_base64_" ++ jsReplaceFirst fp "image_url_") = fp
                 then some dataUri else none)
            ∧ argGet (retryArgs args (exec args).failedParameter dataUri)
                ("image_base64_" ++ jsReplaceFirst fp "image_url_") = some dataUri)
    ∧ (∀ fetchErr, sentinelHit (exec args) requestIp = true →
        fetchUri ((exec args).fileUrl.getD "") = Except.error fetchErr →
        processLocalToolCall exec fetchUri (fuel + 1) args requestIp
          = ([args], ToolOutcome.fetchFailed (exec args).error fetchErr))
    ∧ (sentinelHit (exec args) requestIp = false →
        processLocalToolCall exec fetchUri (fuel + 1) args requestIp
          = ([args], ToolOutcome.pluginError ((exec args).error.getD unspecifiedErrorMsg))) := by
  have hstep : processLocalToolCall exec fetchUri (fuel + 1) args requestIp
      = processLocalToolCallSucc exec fetchUri fuel args requestIp := rfl
  refine ⟨?_, ?_, ?_⟩
  · intro dataUri hsent hfetch
    constructor
    · rw [hstep]
      unfold processLocalToolCallSucc
      dsimp only
      rw [if_neg (by simp [hstat]), if_pos hsent, hfetch]
    · intro fp hfp hfp1 hfp2
      unfold retryArgs
      rw [hfp]
      dsimp only
      rw [if_pos (by simp [hfp1, hfp2])]
      constructor
      · by_cases hk : ("image_base64_" ++ jsReplaceFirst fp "image_url_") = fp
        · rw [if_pos hk, hk]
          exact lookupAssoc_setAssoc_self (argDelete args fp) fp dataUri
        · rw [if_neg hk]
          rw [show argGet (argSet (argDelete args fp)
              ("image_base64_" ++ jsReplaceFirst fp "image_url_") dataUri) fp
            = argGet (argDelete args fp) fp from
              lookupAssoc_setAssoc_other (argDelete args fp) _ fp dataUri
                (fun he => hk he.symm)]
          exact lookupAssoc_delAssoc_self args fp
      · exact lookupAssoc_setAssoc_self (argDelete args fp) _ dataUri
  · intro fetchErr hsent hfetch
    rw [hstep]
    unfold processLocalToolCallSucc
    dsimp only
    rw [if_neg (by simp [hstat]), if_pos hsent, hfetch]
  · intro hsent
    rw [hstep]
    unfold processLocalToolCallSucc
    dsimp only
    rw [if_neg (by simp [hstat]), if_neg (by simp [hsent])]

/-- Witness for c4_amended at the scripted plugin of the counterexample:
    the first sentinel triggers a re-entry with image_url_1 removed and
    image_base64_1 holding the fetched data URI. -/
theorem c4_amended_witness :
    processLocalToolCall c4exec c4fetch 10 c4args (some "10.0.0.7")
      = (c4args :: (processLocalToolCall c4exec c4fetch 9
            (retryArgs c4args (c4exec c4args).failedParameter "data:image/png;base64,QUJD")
            (some "10.0.0.7")).1,
         (processLocalToolCall c4exec c4fetch 9
            (retryArgs c4args (c4exec c4args).failedParameter "data:image/png;base64,QUJD")
            (some "10.0.0.7")).2)
    ∧ argGet (retryArgs c4args (c4exec c4args).failedParameter "data:image/png;base64,QUJD")
        "image_url_1" = none
    ∧ argGet (retryArgs c4args (c4exec c4args).failedParameter "data:image/png;base64,QUJD")
        "image_base64_1" = some "data:image/png;base64,QUJD" := by
  have h := c4_amended c4exec c4fetch 9 c4args (some "10.0.0.7") (by decide)
  have ha := h.1 "data:image/png;base64,QUJD" (by decide) rfl
  have hb := ha.2 "image_url_1" rfl (by decide) (by decide)
  exact ⟨ha.1, hb.1.trans (by decide), hb.2⟩

end VCP
